import Mathlib

/-!
# issue735583: page server and MJPEG stream emitter

A shallow embedding of `issue735583.go` (handlers `handle6MJPEGRoot`,
`handle6MJPEGStream` and the frame generator `getRandomJPEG`) together with
the properties of the landing page, the request dispatch, the multipart
stream loop, the inter-cycle delay and the frame bitmap.

Go strings are Lean strings; where a proof needs the characters it goes
through `String.data`.  Go `int`/`int64` values are mathematical integers,
with the 64-bit wrap-around or saturation written out where the Go library
performs it.
-/

namespace Issue735583

/-! ## Go library functions used by the handlers -/

/-- Result of `strings.HasSuffix(s, suffix)`. -/
def hasSuffix (s suffix : String) : Bool :=
  suffix.data.isSuffixOf s.data

/-- The character of the decimal digit `d` (`d < 10`). -/
def digitChar (d : Nat) : Char := Char.ofNat (48 + d)

/-- The digit loop of `strconv.FormatInt` in base 10: the last digit of `n`
is pushed in front of `acc` until `n < 10`. The first argument bounds the
number of iterations. -/
def fmtNatAux : Nat → Nat → List Char → List Char
  | 0, _, acc => acc
  | fuel + 1, n, acc =>
    if n < 10 then digitChar n :: acc
    else fmtNatAux fuel (n / 10) (digitChar (n % 10) :: acc)

/-- Decimal text of a non-negative integer, as `fmt.Sprint(len(b))` gives it. -/
def fmtNat (n : Nat) : String := String.mk (fmtNatAux (n + 1) n [])

/-- Decimal text of an integer, as the verb `%d` gives it. -/
def fmtInt (z : Int) : String :=
  if z < 0 then "-" ++ fmtNat z.natAbs else fmtNat z.natAbs

/-- The two error kinds of `strconv.NumError`. -/
inductive NumError
  | ErrSyntax
  | ErrRange
  deriving DecidableEq, Repr

/-- Largest `uint64`. -/
def maxUint64 : Nat := 2 ^ 64 - 1

/-- The digit loop of `strconv.ParseUint(s, 10, 64)`, started with the
accumulator `n`. A byte that is no decimal digit ends the loop with value 0
and a syntax error. When the accumulator can no longer be multiplied by ten
or the next digit wraps it around, the loop returns at once with the largest
`uint64` and a range error, without looking at the bytes that follow. -/
def parseUintLoop : List Char → Nat → Nat × Option NumError
  | [], n => (n, none)
  | c :: cs, n =>
    if c.isDigit then
      let d := c.toNat - 48
      if n ≥ maxUint64 / 10 + 1 then (maxUint64, some NumError.ErrRange)
      else
        let n10 := n * 10 % 2 ^ 64
        let n1 := (n10 + d) % 2 ^ 64
        if n1 < n10 ∨ n1 > maxUint64 then (maxUint64, some NumError.ErrRange)
        else parseUintLoop cs n1
    else (0, some NumError.ErrSyntax)

/-- Model of `strconv.ParseUint(s, 10, 64)`. -/
def ParseUint (s : List Char) : Nat × Option NumError :=
  if s = [] then (0, some NumError.ErrSyntax) else parseUintLoop s 0

/-- Conversion `int64(u)` of a `uint64`. -/
def toInt64 (u : Nat) : Int :=
  if u % 2 ^ 64 < 2 ^ 63 then (u % 2 ^ 64 : Nat) else (u % 2 ^ 64 : Nat) - 2 ^ 64

/-- Negation of an `int64`, with wrap-around. -/
def negInt64 (n : Int) : Int :=
  if n = -(2 ^ 63) then n else -n

/-- The text after an optional leading sign `+` or `-`. -/
def stripSign (s : List Char) : List Char :=
  if s.head? = some '+' ∨ s.head? = some '-' then s.tail else s

/-- Model of `strconv.ParseInt(s, 10, 0)` on a 64-bit platform. -/
def ParseInt (s : List Char) : Int × Option NumError :=
  if s = [] then (0, some NumError.ErrSyntax)
  else
    let neg : Bool := s.head? = some '-'
    let r := ParseUint (stripSign s)
    if r.2 = some NumError.ErrSyntax then (0, r.2)
    else
      let cutoff : Nat := 2 ^ 63
      if !neg ∧ r.1 ≥ cutoff then ((cutoff : Int) - 1, some NumError.ErrRange)
      else if neg ∧ r.1 > cutoff then (-(cutoff : Int), some NumError.ErrRange)
      else (if neg then negInt64 (toInt64 r.1) else toInt64 r.1, none)

/-- The digit loop of the fast path of `strconv.Atoi`: `none` stands for the
syntax error raised at a byte that is no decimal digit. -/
def atoiFastLoop : List Char → Int → Option Int
  | [], n => some n
  | c :: cs, n =>
    if c.isDigit then atoiFastLoop cs (n * 10 + ((c.toNat - 48 : Nat) : Int))
    else none

/-- Model of `strconv.Atoi` on a 64-bit platform: the value and the error.
Strings of 1 to 18 bytes take the fast path, all others go through
`ParseInt`. -/
def Atoi (s : String) : Int × Option NumError :=
  let cs := s.data
  if 0 < cs.length ∧ cs.length < 19 then
    let signed : Bool := cs.head? = some '-' ∨ cs.head? = some '+'
    let s1 := stripSign cs
    if signed ∧ s1.length < 1 then (0, some NumError.ErrSyntax)
    else
      match atoiFastLoop s1 0 with
      | none => (0, some NumError.ErrSyntax)
      | some n => (if cs.head? = some '-' then -n else n, none)
  else ParseInt cs

/-! ## The page server -/

/-- The fields of `*http.Request` that `handle6MJPEGRoot` reads. `Path` is
`r.URL.Path`, `TLS` tells whether `r.TLS` is non-nil and `Form` holds the
parsed form values in order. -/
structure Request where
  Method : String
  RequestURI : String
  Path : String
  Proto : String
  ProtoMajor : Nat
  TLS : Bool
  Form : List (String × String)

/-- Model of `r.FormValue(key)`: the first value of the key, or the empty
string when the key is absent. -/
def Request.FormValue (r : Request) (key : String) : String :=
  (r.Form.lookup key).getD ""

/-- What `handle6MJPEGRoot` does with the response. -/
inductive Response
  | stream
  | notFound
  | page (body : String)
  deriving DecidableEq, Repr

/-- The message built with `fmt.Sprintf` from `r.Proto`. -/
def protoMsg (r : Request) : String :=
  if r.TLS = false ∨ r.ProtoMajor = 1 then
    "You're using " ++ r.Proto ++ "; you <b>should</b> see the bug. You will be unable to click link below."
  else
    "You're using " ++ r.Proto ++ "; you <b>should NOT</b> see the bug repro."

/-- First fixed block of the page. -/
def pageIntro : String :=
  "<html><body>\n<h1>Issue 735583 Demo</h1>\n<p>For background, see <a href='https://bugs.chromium.org/p/chromium/issues/detail?id=735583'>Chrome Issue 735583</a>.</p>\n"

/-- Second fixed block of the page, the explanatory text. -/
def pageExplain : String :=
  "<p>This page by defeault streams 6 MJPEG streams (change with URL param <code>?n=</code>) in &lt;img&gt; tags to demonstrate that over HTTP/1.1, navigation to another page on the site via an &lt;a&gt; link is busted.\nIt works with HTTP/2 and fails with plaintext HTTP/1.x.</p>\n"

/-- Fixed block with the link to the other page. -/
def pageLink : String :=
  "\n<h2>\n<a href='/other-page'>Some same-host link to another page</a> &lt-- click me if you can</h2>\n"

/-- The number of streams: `n` is read with `strconv.Atoi` for a GET request
only, values below 1 become 6 and values above 10 become 10. -/
def streamCount (r : Request) : Int :=
  let n0 : Int := if r.Method = "GET" then (Atoi (r.FormValue "n")).1 else 0
  let n1 : Int := if n0 < 1 then 6 else n0
  if n1 > 10 then 10 else n1

/-- The `src` attribute of stream `i` with timestamp `ts`. -/
def imgSrc (i : Nat) (ts : Int) : String :=
  "/cam" ++ fmtInt i ++ "/" ++ fmtInt ts ++ "/stream.mjpg"

/-- The line written for stream `i` by the `fmt.Fprintf` of the loop. -/
def imgTag (i : Nat) (ts : Int) : String :=
  "<img src='" ++ imgSrc i ts ++ "' width=100 height=100 style='border: 2px solid black'>\n"

/-- The body written by `handle6MJPEGRoot` when it renders the page; `now i`
is the value of `time.Now().UnixNano()` in iteration `i`. -/
def renderPage (r : Request) (now : Nat → Int) : String :=
  let buf := pageIntro ++ pageExplain ++ ("<p>" ++ protoMsg r ++ "</p>\n") ++ pageLink
  let buf := buf ++ "\n<p>\n"
  let buf := (List.range (streamCount r).toNat).foldl
    (fun b i => b ++ imgTag i (now i)) buf
  buf ++ "</body></html>\n"

/-- Model of `handle6MJPEGRoot`. -/
def handle6MJPEGRoot (r : Request) (now : Nat → Int) : Response :=
  if hasSuffix r.RequestURI ".mjpg" then Response.stream
  else if r.Path ≠ "/" then Response.notFound
  else Response.page (renderPage r now)

/-- Occurrences of the tag opener `<img` in a text: the positions at which
the text continues with these four characters. -/
def countImg : List Char → Nat
  | [] => 0
  | c :: cs => (if "<img".data.isPrefixOf (c :: cs) then 1 else 0) + countImg cs

/-! ## The stream emitter -/

/-- What the producer goroutine sends on `jpegc`: the error or the bytes
returned by `getRandomJPEG`. -/
inductive FrameResult
  | err (e : String)
  | jpeg (b : List Nat)
  deriving DecidableEq, Repr

/-- The MIME header passed to `mw.CreatePart`. -/
structure PartHeader where
  contentType : String
  contentLength : String
  deriving DecidableEq, Repr

/-- A multipart part on the response: its header and the payload bytes. -/
structure Part where
  header : PartHeader
  payload : List Nat
  deriving DecidableEq, Repr

/-- Where the consumer loop of `handle6MJPEGStream` stands. -/
inductive Loc
  /-- In the first `select`, after `fetchReq <- true`. -/
  | waitFrame
  /-- In the `for i` loop, about to call `mw.CreatePart`. -/
  | createPart (i sendCount : Nat) (jpegBytes : List Nat)
  /-- After `mw.CreatePart` succeeded, about to call `w.Write(jpegBytes)`. -/
  | writePart (i sendCount : Nat) (jpegBytes : List Nat) (h : PartHeader)
  /-- In the second `select`, waiting for the timer. -/
  | delay
  /-- The handler has returned. -/
  | exited
  deriving DecidableEq, Repr

/-- State of one stream session: the program point, the variable `frame`,
whether the request context is cancelled, the parts written to the response,
the lines logged, and the number of completed loop iterations. -/
structure Session where
  loc : Loc
  frame : Nat
  cancelled : Bool
  parts : List Part
  logs : List String
  cycles : Nat
  deriving DecidableEq, Repr

/-- What happens next in a session: the context is cancelled from outside, or
the loop takes one of its branches. -/
inductive Event
  /-- The request context is cancelled. -/
  | cancel
  /-- A `select` takes the case `<-ctx.Done()`. -/
  | ctxDone
  /-- The first `select` takes the case `res := <-jpegc`. -/
  | recv (res : FrameResult)
  /-- `mw.CreatePart` returns; `ok` tells whether its error is nil. -/
  | createPart (ok : Bool)
  /-- `w.Write(jpegBytes)` returns; `ok` tells whether its error is nil. -/
  | write (ok : Bool)
  /-- The second `select` takes the case `<-time.After(...)`. -/
  | timer
  deriving DecidableEq, Repr

/-- The session when the loop is entered. -/
def Session.init : Session :=
  { loc := Loc.waitFrame, frame := 0, cancelled := false, parts := [], logs := [], cycles := 0 }

/-- The line logged by `log.Printf` for a frame error. -/
def logLine (e : String) : String := "error getting issue735583 jpeg: " ++ e

/-- The test `i < sendCount` of the `for` loop: another part, or the delay. -/
def forLoop (i sendCount : Nat) (jpegBytes : List Nat) : Loc :=
  if i < sendCount then Loc.createPart i sendCount jpegBytes else Loc.delay

/-- One step of the consumer loop of `handle6MJPEGStream`. `none` means that
the event cannot happen at this program point. The context can be cancelled
at any point; the loop notices it only where a `select` takes the case
`<-ctx.Done()`, which needs a cancelled context. A `select` takes any of its
ready cases, so a frame that the producer still delivered can be received
after the cancellation. In the second `select` both cases lead to the next
iteration, which starts with `fetchReq <- true` and the first `select`. -/
def step (s : Session) : Event → Option Session
  | Event.cancel => some { s with cancelled := true }
  | Event.ctxDone =>
    if s.cancelled then
      match s.loc with
      | Loc.waitFrame => some { s with loc := Loc.exited }
      | Loc.delay => some { s with loc := Loc.waitFrame, cycles := s.cycles + 1 }
      | _ => none
    else none
  | Event.recv res =>
    match s.loc with
    | Loc.waitFrame =>
      match res with
      | FrameResult.err e => some { s with loc := Loc.exited, logs := s.logs ++ [logLine e] }
      | FrameResult.jpeg jpegBytes =>
        let frame := s.frame + 1
        let sendCount := if frame = 1 then 2 else 1
        some { s with frame := frame, loc := forLoop 0 sendCount jpegBytes }
    | _ => none
  | Event.createPart ok =>
    match s.loc with
    | Loc.createPart i sendCount jpegBytes =>
      if ok then
        some { s with loc := Loc.writePart i sendCount jpegBytes
                        { contentType := "image/jpeg", contentLength := fmtNat jpegBytes.length } }
      else some { s with loc := Loc.exited }
    | _ => none
  | Event.write ok =>
    match s.loc with
    | Loc.writePart i sendCount jpegBytes h =>
      if ok then
        some { s with parts := s.parts ++ [{ header := h, payload := jpegBytes }],
                      loc := forLoop (i + 1) sendCount jpegBytes }
      else some { s with loc := Loc.exited }
    | _ => none
  | Event.timer =>
    match s.loc with
    | Loc.delay => some { s with loc := Loc.waitFrame, cycles := s.cycles + 1 }
    | _ => none

/-- A sequence of steps. -/
def run (s : Session) : List Event → Option Session
  | [] => some s
  | e :: es => (step s e).bind (fun s1 => run s1 es)

/-- Model of `handle6MJPEGStream`: the session reached from the entry of the
loop when the events `evs` happen in this order, or `none` when they cannot
happen in this order. -/
def handle6MJPEGStream (evs : List Event) : Option Session := run Session.init evs

/-- The events of one loop iteration in which the frame `b` arrives, `k`
parts are created and written, and the timer ends the delay. -/
def cycleEvents (b : List Nat) (k : Nat) : List Event :=
  Event.recv (FrameResult.jpeg b) ::
    ((List.replicate k [Event.createPart true, Event.write true]).flatten ++ [Event.timer])

/-- The payloads on the response after the frames `fs` were all sent: the
first frame twice, each later frame once. -/
def sentPayloads : List (List Nat) → List (List Nat)
  | [] => []
  | b :: bs => b :: b :: bs

/-- The frames received in a sequence of events. -/
def framesOf : List Event → List (List Nat)
  | [] => []
  | Event.recv (FrameResult.jpeg b) :: es => b :: framesOf es
  | _ :: es => framesOf es

/-! ## The inter-cycle delay -/

/-- `time.Millisecond` in nanoseconds. -/
def Millisecond : Int := 1000000

/-- The constant `delay` of the loop. -/
def delay : Int := 500 * Millisecond

/-- A `time.Duration` saturates at the bounds of `int64`. -/
def saturate (d : Int) : Int :=
  if d > 2 ^ 63 - 1 then 2 ^ 63 - 1 else if d < -(2 ^ 63) then -(2 ^ 63) else d

/-- `time.Until(t)` read at the instant `now`, instants in nanoseconds. -/
def timeUntil (t now : Int) : Int := saturate (t - now)

/-- How long the channel of `time.After(d)` stays silent: a timer with a
duration that is not positive fires at once. -/
def timerWait (d : Int) : Int := if d ≤ 0 then 0 else d

/-- The wait of `time.After(time.Until(t0.Add(delay)))` when the delay is
computed at the instant `now`. -/
def interCycleWait (t0 now : Int) : Int := timerWait (timeUntil (t0 + delay) now)

/-! ## The frame generator -/

/-- The conversion `byte(x)`. -/
def byte (x : Nat) : Nat := x % 256

/-- The pixel buffer of `image.NewRGBA(image.Rect(0, 0, w, h))`: four zero
bytes per pixel. -/
def newRGBAPix (w h : Nat) : List Nat := List.replicate (4 * w * h) 0

/-- The loop `for i := i0; i < len(pix); i += 4 { pix[i+off] = v }`. An
index out of range makes it `none`; the first argument bounds the number
of iterations. -/
def fillChannel (off v : Nat) : Nat → Nat → List Nat → Option (List Nat)
  | 0, i, pix => if i < pix.length then none else some pix
  | fuel + 1, i, pix =>
    if i < pix.length then
      if i + off < pix.length then fillChannel off v fuel (i + 4) (pix.set (i + off) v)
      else none
    else some pix

/-- The pixel buffer `im.Pix` that `getRandomJPEG` hands to `jpeg.Encode`,
for the three values drawn with `rand.Intn(256)`. -/
def getRandomJPEGPix (ri gi bi : Nat) : Option (List Nat) :=
  let pix := newRGBAPix 25 25
  (fillChannel 0 (byte ri) pix.length 0 pix).bind fun pix1 =>
  (fillChannel 1 (byte gi) pix1.length 0 pix1).bind fun pix2 =>
  fillChannel 2 (byte bi) pix2.length 0 pix2

/-- The result of `getRandomJPEG` for the three values drawn with
`rand.Intn(256)`, with `jpeg.Encode` as a parameter that turns the pixel
buffer into the encoded bytes or an error; `none` stands for an index out of
range in one of the loops. -/
def getRandomJPEG (encode : List Nat → FrameResult) (ri gi bi : Nat) : Option FrameResult :=
  (getRandomJPEGPix ri gi bi).map encode

/-! ## Definitions used to state the properties -/

/-- Value of a run of decimal digits, read from the left from the value `n`. -/
def digitsValueFrom (n : Nat) (ds : List Char) : Nat :=
  ds.foldl (fun a c => a * 10 + (c.toNat - 48)) n

/-- Value of a run of decimal digits. -/
def digitsValue (ds : List Char) : Nat := digitsValueFrom 0 ds

/-- Value of the digits that follow the optional sign, up to the first
character that is no digit. -/
def leadValue (s : String) : Nat :=
  digitsValue ((stripSign s.data).takeWhile Char.isDigit)

/-- The integer written by a text that is a decimal integer: an optional
sign followed by one or more decimal digits and nothing else. -/
def decimalInt? (s : String) : Option Int :=
  let body := stripSign s.data
  if body ≠ [] ∧ body.all Char.isDigit = true then
    some (if s.data.head? = some '-' then -(digitsValue body : Int) else (digitsValue body : Int))
  else none

/-- The number a text of decimal digits denotes, if it is one. -/
def decimalNat? (s : String) : Option Nat :=
  if s.data ≠ [] ∧ s.data.all Char.isDigit = true then some (digitsValue s.data) else none

/-- No proper non-empty beginning of `<img` ends the text, so that no
occurrence of `<img` can start in it and end in what is appended. -/
def safeEnd : List Char → Bool
  | [] => true
  | c :: cs =>
    (decide (4 ≤ (c :: cs).length) || !((c :: cs).isPrefixOf "<img".data)) && safeEnd cs

/-- The value returned by `strconv.Atoi`, written without its loops. -/
def atoiValue (cs : List Char) : Int :=
  let body := stripSign cs
  let v := digitsValue (body.takeWhile Char.isDigit)
  if body = [] then 0
  else if 2 ^ 64 ≤ v then (if cs.head? = some '-' then -(2 ^ 63) else 2 ^ 63 - 1)
  else if body.dropWhile Char.isDigit ≠ [] then 0
  else if cs.head? = some '-' then max (-(2 ^ 63)) (-(v : Int)) else min (v : Int) (2 ^ 63 - 1)

/-! ## Concrete requests -/

/-- A GET request for the root whose form holds the value `n`; `query` is the
query string as it stands in the request target. -/
def getRoot (query n : String) : Request :=
  { Method := "GET", RequestURI := "/" ++ query, Path := "/", Proto := "HTTP/1.1",
    ProtoMajor := 1, TLS := false, Form := [("n", n)] }

/-- A POST request for the root whose form holds the value `n`. -/
def postRoot (n : String) : Request :=
  { Method := "POST", RequestURI := "/", Path := "/", Proto := "HTTP/1.1",
    ProtoMajor := 1, TLS := false, Form := [("n", n)] }

/-- The request `GET /?x=.mjpg`: the path is the root, the request target
ends with `.mjpg`. -/
def reqQueryMjpg : Request :=
  { Method := "GET", RequestURI := "/?x=.mjpg", Path := "/", Proto := "HTTP/1.1",
    ProtoMajor := 1, TLS := false, Form := [("x", ".mjpg")] }

/-- The request `GET /cam0/1/stream.mjpg?x=1`: the path ends with `.mjpg`,
the request target does not. -/
def reqStreamQuery : Request :=
  { Method := "GET", RequestURI := "/cam0/1/stream.mjpg?x=1", Path := "/cam0/1/stream.mjpg",
    Proto := "HTTP/1.1", ProtoMajor := 1, TLS := false, Form := [("x", "1")] }

/-- The request `GET /badpath`. -/
def reqBadPath : Request :=
  { Method := "GET", RequestURI := "/badpath", Path := "/badpath", Proto := "HTTP/1.1",
    ProtoMajor := 1, TLS := false, Form := [] }

/-! ## Invariants of the stream loop -/

/-- What holds of a session in which the frames `fs` have been received. -/
def LoopInv (fs : List (List Nat)) (s : Session) : Prop :=
  match s.loc with
  | Loc.waitFrame =>
    s.frame = fs.length ∧ s.cycles = s.frame ∧ s.parts.map Part.payload = sentPayloads fs
  | Loc.createPart i sendCount b =>
    ∃ fs0, fs = fs0 ++ [b] ∧ s.frame = fs.length ∧ sendCount = (if s.frame = 1 then 2 else 1) ∧
      i < sendCount ∧ s.cycles + 1 = s.frame ∧
      s.parts.map Part.payload = sentPayloads fs0 ++ List.replicate i b
  | Loc.writePart i sendCount b _ =>
    ∃ fs0, fs = fs0 ++ [b] ∧ s.frame = fs.length ∧ sendCount = (if s.frame = 1 then 2 else 1) ∧
      i < sendCount ∧ s.cycles + 1 = s.frame ∧
      s.parts.map Part.payload = sentPayloads fs0 ++ List.replicate i b
  | Loc.delay =>
    s.frame = fs.length ∧ s.cycles + 1 = s.frame ∧ s.parts.map Part.payload = sentPayloads fs
  | Loc.exited => True

/-- What holds of the headers in a session: every part on the response, and
the header of the part being written, declares the type `image/jpeg` and the
decimal length of its payload. -/
def HeaderInv (s : Session) : Prop :=
  (∀ p ∈ s.parts, p.header = PartHeader.mk "image/jpeg" (fmtNat p.payload.length)) ∧
  (∀ i sendCount b h, s.loc = Loc.writePart i sendCount b h →
    h = PartHeader.mk "image/jpeg" (fmtNat b.length))

/-! ## The stream loop with its clock -/

/-- A session together with the instants the loop works with, in
nanoseconds: `t0` is the value of `t0 := time.Now()` of the running
iteration, `clock` the instant of the last event, `delayAt` the instant at
which the second `select` was entered and its timer armed, and `cancelAt`
the instant at which the request context was cancelled, if it was. -/
structure TimedSession where
  s : Session
  t0 : Int
  clock : Int
  delayAt : Int
  cancelAt : Option Int
  deriving DecidableEq, Repr

/-- The session when the loop is entered at the instant `start`. -/
def TimedSession.init (start : Int) : TimedSession :=
  { s := Session.init, t0 := start, clock := start, delayAt := start, cancelAt := none }

/-- One step of the loop at the instant `te.2`. Time does not run backwards
and the context is cancelled once. The statements between two events take
no time: the instant of the `write` that ends the `for` loop is the instant
at which the second `select` is entered, and the instant at which that
`select` is left is the `t0` of the next iteration. In the second `select`
the timer case is taken at the instant `time.After` fires, provided the
cancellation was not ready before; the cancellation case is taken at the
instant the cancellation is ready (the instant of the cancellation, or of
entering the `select` when the context was cancelled before), provided the
timer has not fired before. -/
def timedStep (ts : TimedSession) (te : Event × Int) : Option TimedSession :=
  if te.2 < ts.clock then none
  else
    match step ts.s te.1 with
    | none => none
    | some s1 =>
      match te.1 with
      | Event.cancel =>
        if ts.cancelAt = none then
          some { ts with s := s1, clock := te.2, cancelAt := some te.2 }
        else none
      | Event.timer =>
        if te.2 = ts.delayAt + interCycleWait ts.t0 ts.delayAt ∧
            (ts.cancelAt = none ∨ te.2 ≤ ts.clock) then
          some { ts with s := s1, t0 := te.2, clock := te.2 }
        else none
      | Event.ctxDone =>
        if ts.s.loc = Loc.delay then
          if te.2 = ts.clock ∧ te.2 ≤ ts.delayAt + interCycleWait ts.t0 ts.delayAt then
            some { ts with s := s1, t0 := te.2, clock := te.2 }
          else none
        else some { ts with s := s1, clock := te.2 }
      | _ =>
        some { ts with s := s1, clock := te.2,
                       delayAt := if s1.loc = Loc.delay then te.2 else ts.delayAt }

/-- A sequence of steps, each with its instant. -/
def timedRun (ts : TimedSession) : List (Event × Int) → Option TimedSession
  | [] => some ts
  | te :: tes => (timedStep ts te).bind (fun ts1 => timedRun ts1 tes)

/-- What holds of the instants of a session: the iteration started before the
last event, the context is cancelled exactly when the instant of the
cancellation is known, and in the second `select` the timer was armed after
the start of the iteration and before the last event, which is the arming
itself as long as the context is not cancelled. -/
def TimedInv (ts : TimedSession) : Prop :=
  ts.t0 ≤ ts.clock ∧
  (ts.s.cancelled = true ↔ ts.cancelAt ≠ none) ∧
  (ts.s.loc = Loc.delay →
    ts.t0 ≤ ts.delayAt ∧ ts.delayAt ≤ ts.clock ∧ (ts.cancelAt = none → ts.clock = ts.delayAt))

set_option maxRecDepth 100000

/-! ## Counting `<img` in a text -/

theorem imgPat_length : "<img".data.length = 4 := by decide

theorem isPrefixOf_append_of_safe (s b : List Char)
    (h : (decide (4 ≤ s.length) || !(s.isPrefixOf "<img".data)) = true) :
    "<img".data.isPrefixOf (s ++ b) = "<img".data.isPrefixOf s := by
  rw [Bool.eq_iff_iff]
  simp only [List.isPrefixOf_iff_prefix]
  simp only [Bool.or_eq_true, decide_eq_true_eq, Bool.not_eq_true', ← Bool.not_eq_true,
    List.isPrefixOf_iff_prefix] at h
  constructor
  · intro hp
    by_cases hl : 4 ≤ s.length
    · exact List.prefix_of_prefix_length_le hp (List.prefix_append s b)
        (by rw [imgPat_length]; exact hl)
    · exfalso
      rcases h with h | h
      · exact hl h
      · exact h (List.prefix_of_prefix_length_le (List.prefix_append s b) hp
          (by rw [imgPat_length]; omega))
  · intro hp
    exact hp.trans (List.prefix_append s b)

theorem countImg_append (a b : List Char) (h : safeEnd a = true) :
    countImg (a ++ b) = countImg a + countImg b := by
  induction a with
  | nil => simp [countImg]
  | cons c cs ih =>
    simp only [safeEnd, Bool.and_eq_true] at h
    have h1 := isPrefixOf_append_of_safe (c :: cs) b h.1
    rw [List.cons_append] at h1 ⊢
    simp only [countImg, h1, ih h.2]
    omega

theorem countImg_cons_ne (c : Char) (l : List Char) (h : c ≠ '<') :
    countImg (c :: l) = countImg l := by
  have : "<img".data.isPrefixOf (c :: l) = false := by
    show ('<' :: "img".data).isPrefixOf (c :: l) = false
    simp [List.isPrefixOf, Ne.symm h]
  simp [countImg, this]

theorem countImg_noLt_append (p b : List Char) (h : ∀ c ∈ p, c ≠ '<') :
    countImg (p ++ b) = countImg b := by
  induction p with
  | nil => rfl
  | cons c cs ih =>
    rw [List.cons_append, countImg_cons_ne _ _ (h c (List.mem_cons_self _ _))]
    exact ih (fun x hx => h x (List.mem_cons_of_mem _ hx))

theorem safeEnd_append (a b : List Char) (hb : safeEnd b = true) (hl : 3 ≤ b.length) :
    safeEnd (a ++ b) = true := by
  induction a with
  | nil => simpa using hb
  | cons c cs ih =>
    rw [List.cons_append]
    simp only [safeEnd, Bool.and_eq_true, Bool.or_eq_true, decide_eq_true_eq]
    refine ⟨Or.inl ?_, ih⟩
    simp only [List.length_cons, List.length_append]
    omega

theorem digitChar_isDigit (d : Nat) (h : d < 10) : (digitChar d).isDigit = true := by
  interval_cases d <;> decide

theorem fmtNatAux_isDigit (fuel n : Nat) (acc : List Char)
    (hacc : ∀ c ∈ acc, c.isDigit = true) :
    ∀ c ∈ fmtNatAux fuel n acc, c.isDigit = true := by
  induction fuel generalizing n acc with
  | zero => simpa [fmtNatAux] using hacc
  | succ k ih =>
    unfold fmtNatAux
    split
    · intro c hc
      rcases List.mem_cons.mp hc with h | h
      · rw [h]; exact digitChar_isDigit n (by assumption)
      · exact hacc c h
    · apply ih
      intro c hc
      rcases List.mem_cons.mp hc with h | h
      · rw [h]; exact digitChar_isDigit _ (Nat.mod_lt _ (by decide))
      · exact hacc c h

theorem fmtNat_isDigit (n : Nat) : ∀ c ∈ (fmtNat n).data, c.isDigit = true :=
  fmtNatAux_isDigit _ _ _ (by simp)

theorem isDigit_ne_lt (c : Char) (h : c.isDigit = true) : c ≠ '<' := by
  rintro rfl
  exact absurd h (by decide)

theorem fmtInt_noLt (z : Int) : ∀ c ∈ (fmtInt z).data, c ≠ '<' := by
  intro c hc
  unfold fmtInt at hc
  split at hc
  · rw [String.data_append] at hc
    rcases List.mem_append.mp hc with h | h
    · have : c = '-' := by simpa using h
      rw [this]; decide
    · exact isDigit_ne_lt c (fmtNat_isDigit _ c h)
  · exact isDigit_ne_lt c (fmtNat_isDigit _ c hc)

theorem countImg_imgTag (i : Nat) (ts : Int) : countImg (imgTag i ts).data = 1 := by
  have e : (imgTag i ts).data = "<img src='/cam".data ++ ((fmtInt i).data ++
      ('/' :: ((fmtInt ts).data ++
        "/stream.mjpg' width=100 height=100 style='border: 2px solid black'>\n".data))) := by
    simp [imgTag, imgSrc, String.data_append]
  rw [e, countImg_append "<img src='/cam".data _ (by decide),
    countImg_noLt_append (fmtInt i).data _ (fmtInt_noLt _),
    countImg_cons_ne '/' _ (by decide), countImg_noLt_append (fmtInt ts).data _ (fmtInt_noLt _)]
  decide

theorem tagLoop_count (now : Nat → Int) (l : List Nat) (buf : String)
    (hs : safeEnd buf.data = true) :
    safeEnd (l.foldl (fun b i => b ++ imgTag i (now i)) buf).data = true ∧
    countImg (l.foldl (fun b i => b ++ imgTag i (now i)) buf).data
      = countImg buf.data + l.length := by
  induction l generalizing buf with
  | nil => simpa using hs
  | cons i is ih =>
    rw [List.foldl_cons]
    have hs1 : safeEnd (buf ++ imgTag i (now i)).data = true := by
      have e : (imgTag i (now i)).data = ("<img src='".data ++ (imgSrc i (now i)).data) ++
          "' width=100 height=100 style='border: 2px solid black'>\n".data := by
        simp [imgTag, String.data_append]
      rw [String.data_append, e, ← List.append_assoc]
      exact safeEnd_append _ _ (by decide) (by decide)
    obtain ⟨h1, h2⟩ := ih (buf ++ imgTag i (now i)) hs1
    refine ⟨h1, ?_⟩
    rw [h2, String.data_append, countImg_append _ _ hs, countImg_imgTag, List.length_cons]
    omega

theorem protoMsg_count (r : Request) (hp : ∀ c ∈ r.Proto.data, c ≠ '<') (rest : List Char) :
    countImg ((protoMsg r).data ++ rest) = countImg rest := by
  unfold protoMsg
  split
  · simp only [String.data_append, List.append_assoc]
    rw [countImg_append "You're using ".data _ (by decide),
      countImg_noLt_append r.Proto.data _ hp,
      countImg_append "; you <b>should</b> see the bug. You will be unable to click link below.".data
        _ (by decide)]
    have h1 : countImg "You're using ".data = 0 := by decide
    have h2 : countImg
      "; you <b>should</b> see the bug. You will be unable to click link below.".data = 0 := by
      decide
    omega
  · simp only [String.data_append, List.append_assoc]
    rw [countImg_append "You're using ".data _ (by decide),
      countImg_noLt_append r.Proto.data _ hp,
      countImg_append "; you <b>should NOT</b> see the bug repro.".data _ (by decide)]
    have h1 : countImg "You're using ".data = 0 := by decide
    have h2 : countImg "; you <b>should NOT</b> see the bug repro.".data = 0 := by decide
    omega

theorem countImg_renderPage (r : Request) (now : Nat → Int)
    (hp : ∀ c ∈ r.Proto.data, c ≠ '<') :
    countImg (renderPage r now).data = (streamCount r).toNat := by
  unfold renderPage
  simp only
  have hs0 : safeEnd (pageIntro ++ pageExplain ++ ("<p>" ++ protoMsg r ++ "</p>\n") ++ pageLink
      ++ "\n<p>\n").data = true := by
    rw [String.data_append]
    exact safeEnd_append _ _ (by decide) (by decide)
  have hc0 : countImg (pageIntro ++ pageExplain ++ ("<p>" ++ protoMsg r ++ "</p>\n") ++ pageLink
      ++ "\n<p>\n").data = 0 := by
    simp only [String.data_append, List.append_assoc]
    rw [countImg_append pageIntro.data _ (by decide),
      countImg_append pageExplain.data _ (by decide),
      countImg_append "<p>".data _ (by decide),
      protoMsg_count r hp]
    decide
  obtain ⟨h1, h2⟩ := tagLoop_count now (List.range (streamCount r).toNat) _ hs0
  rw [String.data_append, countImg_append _ _ h1, h2, hc0, List.length_range]
  have : countImg "</body></html>\n".data = 0 := by decide
  omega

/-! ## The value of `strconv.Atoi` -/

theorem isDigit_val_le (c : Char) (h : c.isDigit = true) : c.toNat - 48 ≤ 9 := by
  simp only [Char.isDigit, Bool.and_eq_true, decide_eq_true_eq] at h
  have h2 := h.2
  have : c.val.toNat ≤ 57 := by
    have := UInt32.le_def.mp h2
    simpa using this
  show c.val.toNat - 48 ≤ 9
  omega

theorem digitsValueFrom_ge (ds : List Char) (n : Nat) : n ≤ digitsValueFrom n ds := by
  induction ds generalizing n with
  | nil => exact Nat.le_refl _
  | cons c cs ih =>
    show n ≤ digitsValueFrom (n * 10 + (c.toNat - 48)) cs
    exact Nat.le_trans (by omega) (ih _)

theorem digitsValueFrom_cons (n : Nat) (c : Char) (cs : List Char) :
    digitsValueFrom n (c :: cs) = digitsValueFrom (n * 10 + (c.toNat - 48)) cs := rfl

theorem digitsValueFrom_lt (ds : List Char) (n : Nat) (h : ∀ c ∈ ds, c.isDigit = true) :
    digitsValueFrom n ds < (n + 1) * 10 ^ ds.length := by
  induction ds generalizing n with
  | nil => simp [digitsValueFrom]
  | cons c cs ih =>
    rw [digitsValueFrom_cons]
    have hc := isDigit_val_le c (h c (List.mem_cons_self _ _))
    have := ih (n * 10 + (c.toNat - 48)) (fun x hx => h x (List.mem_cons_of_mem _ hx))
    calc digitsValueFrom (n * 10 + (c.toNat - 48)) cs
        < (n * 10 + (c.toNat - 48) + 1) * 10 ^ cs.length := this
      _ ≤ ((n + 1) * 10) * 10 ^ cs.length := Nat.mul_le_mul_right _ (by omega)
      _ = (n + 1) * 10 ^ (c :: cs).length := by
        rw [List.length_cons, pow_succ]; ring

theorem parseUintLoop_eq (s : List Char) (n : Nat) (hn : n < 2 ^ 64) :
    parseUintLoop s n =
      if 2 ^ 64 ≤ digitsValueFrom n (s.takeWhile Char.isDigit) then
        (maxUint64, some NumError.ErrRange)
      else if s.dropWhile Char.isDigit = [] then
        (digitsValueFrom n (s.takeWhile Char.isDigit), none)
      else (0, some NumError.ErrSyntax) := by
  induction s generalizing n with
  | nil =>
    have : ¬ 2 ^ 64 ≤ digitsValueFrom n [] := by
      show ¬ 2 ^ 64 ≤ n
      omega
    rw [List.takeWhile_nil, List.dropWhile_nil, if_neg this, if_pos rfl]
    rfl
  | cons c cs ih =>
    unfold parseUintLoop
    by_cases hc : c.isDigit = true
    · have hd := isDigit_val_le c hc
      rw [if_pos hc, List.takeWhile_cons_of_pos hc, List.dropWhile_cons_of_pos hc,
        digitsValueFrom_cons]
      have hge := digitsValueFrom_ge (cs.takeWhile Char.isDigit) (n * 10 + (c.toNat - 48))
      by_cases h1 : n ≥ maxUint64 / 10 + 1
      · have : 2 ^ 64 ≤ digitsValueFrom (n * 10 + (c.toNat - 48)) (cs.takeWhile Char.isDigit) := by
          unfold maxUint64 at h1
          omega
        rw [if_pos this]
        simp only [h1, if_true]
      · have hn10 : n * 10 % 2 ^ 64 = n * 10 := by
          apply Nat.mod_eq_of_lt
          unfold maxUint64 at h1
          omega
        simp only [h1, if_false]
        rw [hn10]
        by_cases h2 : n * 10 + (c.toNat - 48) < 2 ^ 64
        · have hm : (n * 10 + (c.toNat - 48)) % 2 ^ 64 = n * 10 + (c.toNat - 48) :=
            Nat.mod_eq_of_lt h2
          have h3 : ¬ (n * 10 + (c.toNat - 48) < n * 10 ∨ n * 10 + (c.toNat - 48) > maxUint64) := by
            unfold maxUint64
            omega
          rw [hm, if_neg h3]
          exact ih _ h2
        · have hm : (n * 10 + (c.toNat - 48)) % 2 ^ 64 < n * 10 ∨
              (n * 10 + (c.toNat - 48)) % 2 ^ 64 > maxUint64 := by
            left
            unfold maxUint64 at h1
            omega
          have : 2 ^ 64 ≤ digitsValueFrom (n * 10 + (c.toNat - 48)) (cs.takeWhile Char.isDigit) := by
            omega
          rw [if_pos hm, if_pos this]
    · have : ¬ 2 ^ 64 ≤ digitsValueFrom n [] := by
        show ¬ 2 ^ 64 ≤ n
        omega
      have hd : ¬ (c :: cs = []) := by simp
      rw [if_neg hc, List.takeWhile_cons_of_neg hc, List.dropWhile_cons_of_neg hc, if_neg this,
        if_neg hd]

theorem atoiFastLoop_eq (s : List Char) (n : Nat) :
    atoiFastLoop s (n : Int) =
      if s.all Char.isDigit = true then some ((digitsValueFrom n s : Nat) : Int) else none := by
  induction s generalizing n with
  | nil => simp [atoiFastLoop, digitsValueFrom]
  | cons c cs ih =>
    unfold atoiFastLoop
    by_cases hc : c.isDigit = true
    · simp only [hc, if_true, List.all_cons, Bool.true_and, digitsValueFrom_cons]
      have := ih (n * 10 + (c.toNat - 48))
      rw [← this]
      push_cast
      rfl
    · simp [hc]

theorem ParseInt_value (cs : List Char) : (ParseInt cs).1 = atoiValue cs := by
  unfold ParseInt atoiValue
  by_cases h0 : cs = []
  · subst h0
    simp [stripSign]
  · rw [if_neg h0]
    by_cases hb : stripSign cs = []
    · simp [hb, ParseUint]
    · rw [if_neg hb]
      have hp : ParseUint (stripSign cs) = parseUintLoop (stripSign cs) 0 := by
        simp [ParseUint, hb]
      have hloop := parseUintLoop_eq (stripSign cs) 0 (by norm_num)
      rw [← hp] at hloop
      change ParseUint (stripSign cs) = if 2 ^ 64 ≤ digitsValue _ then _ else _ at hloop
      by_cases hv : 2 ^ 64 ≤ digitsValue ((stripSign cs).takeWhile Char.isDigit)
      · rw [if_pos hv] at hloop
        rw [if_pos hv, hloop]
        by_cases hneg : cs.head? = some '-'
        · simp [hneg, maxUint64]
        · simp [hneg, maxUint64]
      · rw [if_neg hv] at hloop
        rw [if_neg hv]
        by_cases hr : (stripSign cs).dropWhile Char.isDigit = []
        · rw [if_pos hr] at hloop
          have hr' : ¬ ((stripSign cs).dropWhile Char.isDigit ≠ []) := fun h => h hr
          have hnone : ¬ ((none : Option NumError) = some NumError.ErrSyntax) := by simp
          rw [if_neg hr', hloop]
          simp only
          rw [if_neg hnone]
          unfold digitsValue at hv ⊢
          generalize digitsValueFrom 0 ((stripSign cs).takeWhile Char.isDigit) = v at hv ⊢
          have hv' : v < 2 ^ 64 := by omega
          have hmod : v % 2 ^ 64 = v := Nat.mod_eq_of_lt hv'
          by_cases hneg : cs.head? = some '-'
          · simp only [hneg, decide_True, Bool.not_true, Bool.false_eq_true, false_and, if_false,
              true_and, if_true]
            by_cases h2 : v > 2 ^ 63
            · rw [if_pos h2]
              simp only
              rw [max_eq_left]
              · norm_num
              · have : ((2:Int) ^ 63) < (v : Int) := by exact_mod_cast h2
                omega
            · rw [if_neg h2]
              simp only
              unfold negInt64 toInt64
              rw [hmod]
              by_cases h3 : v < 2 ^ 63
              · rw [if_pos h3]
                have h4 : ((v : Int)) ≠ -(2 ^ 63) := by
                  have : (0 : Int) ≤ v := Int.ofNat_nonneg v
                  omega
                rw [if_neg h4, max_eq_right]
                have : (v : Int) < 2 ^ 63 := by exact_mod_cast h3
                omega
              · rw [if_neg h3]
                have h5 : v = 2 ^ 63 := by omega
                subst h5
                norm_num
          · simp only [hneg, decide_False, Bool.not_false, true_and, false_and, if_false,
              Bool.false_eq_true]
            by_cases h2 : v ≥ 2 ^ 63
            · rw [if_pos h2]
              simp only
              rw [min_eq_right]
              · norm_num
              · have : ((2:Int) ^ 63) ≤ (v : Int) := by exact_mod_cast h2
                omega
            · rw [if_neg h2]
              unfold toInt64
              have h3 : v < 2 ^ 63 := by omega
              rw [hmod, if_pos h3, min_eq_left]
              have : (v : Int) < 2 ^ 63 := by exact_mod_cast (by omega : v < 2 ^ 63)
              omega
        · rw [if_neg hr] at hloop
          have hr' : (stripSign cs).dropWhile Char.isDigit ≠ [] := hr
          rw [if_pos hr', hloop]
          simp

theorem stripSign_length_le (cs : List Char) : (stripSign cs).length ≤ cs.length := by
  unfold stripSign
  split
  · simp
  · exact Nat.le_refl _

theorem stripSign_eq_of_unsigned (cs : List Char)
    (h : ¬ (cs.head? = some '-' ∨ cs.head? = some '+')) : stripSign cs = cs := by
  unfold stripSign
  rw [if_neg]
  tauto

theorem Atoi_value (s : String) : (Atoi s).1 = atoiValue s.data := by
  unfold Atoi
  simp only
  by_cases hlen : 0 < s.data.length ∧ s.data.length < 19
  · rw [if_pos hlen]
    generalize s.data = cs at hlen ⊢
    have hbl := stripSign_length_le cs
    have htw : ∀ c ∈ (stripSign cs).takeWhile Char.isDigit, c.isDigit = true :=
      fun c hc => List.mem_takeWhile_imp hc
    have hbound := digitsValueFrom_lt _ 0 htw
    have hlt : digitsValue ((stripSign cs).takeWhile Char.isDigit) < 10 ^ 18 := by
      have h1 : ((stripSign cs).takeWhile Char.isDigit).length ≤ 18 := by
        have := (List.takeWhile_sublist (l := stripSign cs) Char.isDigit).length_le
        omega
      have h2 : 10 ^ ((stripSign cs).takeWhile Char.isDigit).length ≤ 10 ^ 18 :=
        Nat.pow_le_pow_right (by norm_num) h1
      unfold digitsValue
      omega
    have hv : ¬ 2 ^ 64 ≤ digitsValue ((stripSign cs).takeWhile Char.isDigit) := by
      have : (10:Nat) ^ 18 < 2 ^ 64 := by norm_num
      omega
    unfold atoiValue
    simp only
    by_cases hb : stripSign cs = []
    · have hs : cs.head? = some '-' ∨ cs.head? = some '+' := by
        by_contra hc
        rw [stripSign_eq_of_unsigned cs hc] at hb
        rw [hb] at hlen
        simp at hlen
      simp [hb, hs]
    · have hb1 : ¬ (stripSign cs).length < 1 := by
        cases hcs : stripSign cs with
        | nil => exact absurd hcs hb
        | cons _ _ => simp
      rw [if_neg hb, if_neg hv, if_neg (fun h => hb1 h.2)]
      have hfast := atoiFastLoop_eq (stripSign cs) 0
      rw [Nat.cast_zero] at hfast
      rw [hfast]
      by_cases hall : (stripSign cs).all Char.isDigit = true
      · have hall' : ∀ x ∈ stripSign cs, Char.isDigit x = true := by simpa using hall
        have htk : (stripSign cs).takeWhile Char.isDigit = stripSign cs :=
          List.takeWhile_eq_self_iff.mpr hall'
        have hdr : ¬ ((stripSign cs).dropWhile Char.isDigit ≠ []) := by
          intro h
          exact h (List.dropWhile_eq_nil_iff.mpr hall')
        rw [htk] at hlt
        rw [if_pos hall, if_neg hdr, htk]
        unfold digitsValue at hlt ⊢
        generalize digitsValueFrom 0 (stripSign cs) = v at hlt ⊢
        have hv2 : (v : Int) < 10 ^ 18 := by exact_mod_cast hlt
        simp only
        split
        · rw [max_eq_right]
          omega
        · rw [min_eq_left]
          omega
      · have hdr : (stripSign cs).dropWhile Char.isDigit ≠ [] := by
          intro h
          apply hall
          have := List.dropWhile_eq_nil_iff.mp h
          simpa using this
        rw [if_neg hall, if_pos hdr]
  · rw [if_neg hlen]
    exact ParseInt_value s.data

theorem streamCount_get (r : Request) (h : r.Method = "GET") :
    streamCount r =
      if atoiValue (r.FormValue "n").data < 1 then 6
      else if atoiValue (r.FormValue "n").data > 10 then 10
      else atoiValue (r.FormValue "n").data := by
  unfold streamCount
  simp only [h, if_true, Atoi_value]
  split
  · simp
  · rfl

theorem streamCount_not_get (r : Request) (h : r.Method ≠ "GET") : streamCount r = 6 := by
  unfold streamCount
  simp [h]

theorem page_body_eq (r : Request) (now : Nat → Int) (body : String)
    (h : handle6MJPEGRoot r now = Response.page body) : body = renderPage r now := by
  unfold handle6MJPEGRoot at h
  split at h
  · cases h
  · split at h
    · cases h
    · injection h with h
      exact h.symm

theorem atoiValue_of_empty (cs : List Char) (hb : stripSign cs = []) : atoiValue cs = 0 := by
  unfold atoiValue
  simp only
  rw [if_pos hb]

theorem atoiValue_of_digits (cs : List Char) (hb : stripSign cs ≠ [])
    (hall : ∀ x ∈ stripSign cs, Char.isDigit x = true) :
    atoiValue cs =
      if 2 ^ 64 ≤ digitsValue (stripSign cs) then
        (if cs.head? = some '-' then -(2 ^ 63) else 2 ^ 63 - 1)
      else if cs.head? = some '-' then max (-(2 ^ 63)) (-(digitsValue (stripSign cs) : Int))
      else min (digitsValue (stripSign cs) : Int) (2 ^ 63 - 1) := by
  have htk : (stripSign cs).takeWhile Char.isDigit = stripSign cs :=
    List.takeWhile_eq_self_iff.mpr hall
  have hdr : ¬ ((stripSign cs).dropWhile Char.isDigit ≠ []) :=
    fun h => h (List.dropWhile_eq_nil_iff.mpr hall)
  unfold atoiValue
  simp only
  rw [if_neg hb, if_neg hdr, htk]

theorem atoiValue_of_garbage (cs : List Char)
    (hall : ¬ ∀ x ∈ stripSign cs, Char.isDigit x = true) :
    atoiValue cs =
      if 2 ^ 64 ≤ digitsValue ((stripSign cs).takeWhile Char.isDigit) then
        (if cs.head? = some '-' then -(2 ^ 63) else 2 ^ 63 - 1)
      else 0 := by
  have hb : stripSign cs ≠ [] := by
    intro h
    apply hall
    rw [h]
    simp
  have hdr : (stripSign cs).dropWhile Char.isDigit ≠ [] :=
    fun h => hall (List.dropWhile_eq_nil_iff.mp h)
  unfold atoiValue
  simp only
  rw [if_neg hb, if_pos hdr]

theorem atoiValue_decimal (s : String) :
    (if atoiValue s.data < 1 then (6 : Int)
      else if atoiValue s.data > 10 then 10 else atoiValue s.data) =
    match decimalInt? s with
    | some v => if 1 ≤ v then min v 10 else 6
    | none => if s.data.head? ≠ some '-' ∧ 2 ^ 64 ≤ leadValue s then 10 else 6 := by
  unfold decimalInt? leadValue
  generalize s.data = cs
  simp only
  by_cases hb : stripSign cs = []
  · have hc : ¬ (stripSign cs ≠ [] ∧ (stripSign cs).all Char.isDigit = true) := fun h => h.1 hb
    rw [atoiValue_of_empty cs hb, if_neg hc, hb]
    simp [digitsValue, digitsValueFrom]
  · by_cases hall : ∀ x ∈ stripSign cs, Char.isDigit x = true
    · have hc : stripSign cs ≠ [] ∧ (stripSign cs).all Char.isDigit = true :=
        ⟨hb, by simpa using hall⟩
      rw [atoiValue_of_digits cs hb hall, if_pos hc]
      generalize digitsValue (stripSign cs) = v
      simp only
      have hv0 : (0 : Int) ≤ v := Int.ofNat_nonneg v
      by_cases hneg : cs.head? = some '-'
      · simp only [hneg, if_true]
        have h1 : ¬ (1 ≤ -(v : Int)) := by omega
        rw [if_neg h1]
        by_cases hv : 2 ^ 64 ≤ v
        · rw [if_pos hv, if_pos (by norm_num)]
        · have : max (-(2 : Int) ^ 63) (-(v : Int)) < 1 := by
            apply max_lt <;> omega
          rw [if_neg hv, if_pos this]
      · simp only [hneg, if_false]
        by_cases hv : 2 ^ 64 ≤ v
        · have hv1 : (2 : Int) ^ 64 ≤ v := by exact_mod_cast hv
          have h1 : (1 : Int) ≤ v := by omega
          rw [if_pos hv, if_neg (by norm_num), if_pos (by norm_num), if_pos h1,
            min_eq_right (by omega)]
        · rw [if_neg hv]
          rcases le_total (v : Int) (2 ^ 63 - 1) with h | h
          · rw [min_eq_left h]
            by_cases h1 : (v : Int) < 1
            · have h1' : ¬ (1 ≤ (v : Int)) := by omega
              rw [if_pos h1, if_neg h1']
            · have h1' : 1 ≤ (v : Int) := by omega
              rw [if_neg h1, if_pos h1']
              by_cases h2 : (v : Int) > 10
              · rw [if_pos h2, min_eq_right (by omega)]
              · rw [if_neg h2, min_eq_left (by omega)]
          · have h1' : 1 ≤ (v : Int) := by omega
            rw [min_eq_right h, if_neg (by norm_num), if_pos (by norm_num),
              if_pos h1', min_eq_right (by omega)]
    · have hc : ¬ (stripSign cs ≠ [] ∧ (stripSign cs).all Char.isDigit = true) :=
        fun h => hall (by simpa using h.2)
      rw [atoiValue_of_garbage cs hall, if_neg hc]
      simp only
      by_cases hv : 2 ^ 64 ≤ digitsValue ((stripSign cs).takeWhile Char.isDigit)
      · rw [if_pos hv]
        by_cases hneg : cs.head? = some '-'
        · have hc2 : ¬ (cs.head? ≠ some '-' ∧
              2 ^ 64 ≤ digitsValue ((stripSign cs).takeWhile Char.isDigit)) := fun h => h.1 hneg
          rw [if_pos hneg, if_pos (by norm_num), if_neg hc2]
        · have hc2 : cs.head? ≠ some '-' ∧
              2 ^ 64 ≤ digitsValue ((stripSign cs).takeWhile Char.isDigit) := ⟨hneg, hv⟩
          rw [if_neg hneg, if_neg (by norm_num), if_pos (by norm_num), if_pos hc2]
      · have hc2 : ¬ (cs.head? ≠ some '-' ∧
            2 ^ 64 ≤ digitsValue ((stripSign cs).takeWhile Char.isDigit)) := fun h => hv h.2
        rw [if_neg hv, if_pos (by norm_num), if_neg hc2]

/-! ## The number of streams on the landing page -/

theorem streamCount_pos (r : Request) : 1 ≤ streamCount r ∧ streamCount r ≤ 10 := by
  unfold streamCount
  simp only
  split <;> split <;> omega

theorem countImg_page (r : Request) (now : Nat → Int) (body : String)
    (hpage : handle6MJPEGRoot r now = Response.page body)
    (hproto : ∀ c ∈ r.Proto.data, c ≠ '<') :
    (countImg body.data : Int) = streamCount r := by
  rw [page_body_eq r now body hpage, countImg_renderPage r now hproto]
  exact Int.toNat_of_nonneg (by have := (streamCount_pos r).1; omega)

/-- C1 (as amended). For a GET request for which `handle6MJPEGRoot` renders the
landing page (the protocol text holding no `<`), the number of `<img`
openers in the body is `min v 10` when the form value `n` is a decimal integer
`v ≥ 1` (so 10 for every `v ≥ 10`, also beyond the range of `int`), 6 when it
is a decimal integer `v ≤ 0`, 6 when `n` is absent, and for a value that is no
decimal integer it is 6 unless the value has no minus sign and its leading
digits already exceed the range of `uint64`, in which case it is 10. -/
theorem landing_page_img_count (r : Request) (now : Nat → Int) (body : String)
    (hget : r.Method = "GET") (hpage : handle6MJPEGRoot r now = Response.page body)
    (hproto : ∀ c ∈ r.Proto.data, c ≠ '<') :
    ((countImg body.data : Int) =
      match decimalInt? (r.FormValue "n") with
      | some v => if 1 ≤ v then min v 10 else 6
      | none =>
        if (r.FormValue "n").data.head? ≠ some '-' ∧ 2 ^ 64 ≤ leadValue (r.FormValue "n")
        then 10 else 6) ∧
    (r.Form.lookup "n" = none → countImg body.data = 6) := by
  have hc := countImg_page r now body hpage hproto
  have hs := streamCount_get r hget
  constructor
  · rw [hc, hs]
    exact atoiValue_decimal (r.FormValue "n")
  · intro hn
    have h0 : r.FormValue "n" = "" := by simp [Request.FormValue, hn]
    rw [h0] at hs
    have : atoiValue "".data = 0 := by decide
    rw [this, if_pos (by norm_num)] at hs
    rw [hs] at hc
    exact_mod_cast hc

/-- Scenario of C1: `GET /?n=3` gives a page with exactly 3 `<img` openers. -/
theorem landing_page_img_count_witness :
    countImg (renderPage (getRoot "?n=3" "3") (fun i => 1000 + i)).data = 3 := by
  have h := (landing_page_img_count (getRoot "?n=3" "3") (fun i => 1000 + i) _ rfl rfl
    (by decide)).1
  have hd : decimalInt? ((getRoot "?n=3" "3").FormValue "n") = some 3 := by decide
  rw [hd] at h
  norm_num at h
  exact_mod_cast h

/-- Counterexample to C1 as stated: the form value `99999999999999999999x` is
no number, yet `strconv.Atoi` returns the largest `int` for it and the page
of `GET /?n=99999999999999999999x` holds 10 `<img` openers, not 6. -/
theorem garbage_after_overflow_counterexample :
    decimalInt? "99999999999999999999x" = none ∧
    Atoi "99999999999999999999x" = (2 ^ 63 - 1, some NumError.ErrRange) ∧
    handle6MJPEGRoot (getRoot "?n=99999999999999999999x" "99999999999999999999x") (fun _ => 0)
      = Response.page
        (renderPage (getRoot "?n=99999999999999999999x" "99999999999999999999x") (fun _ => 0)) ∧
    countImg
      (renderPage (getRoot "?n=99999999999999999999x" "99999999999999999999x") (fun _ => 0)).data
      = 10 := by
  refine ⟨by decide, by decide, rfl, ?_⟩
  rw [countImg_renderPage _ _ (by decide)]
  have : streamCount (getRoot "?n=99999999999999999999x" "99999999999999999999x") = 10 := by
    decide
  rw [this]
  rfl

/-- C10 (as amended). The form value `n` is read for GET requests only: for a
POST request for which `handle6MJPEGRoot` renders the landing page (the
protocol text holding no `<`), the body holds exactly 6 `<img` openers,
whatever the form says. -/
theorem post_page_img_count (r : Request) (now : Nat → Int) (body : String)
    (hpost : r.Method = "POST") (hpage : handle6MJPEGRoot r now = Response.page body)
    (hproto : ∀ c ∈ r.Proto.data, c ≠ '<') :
    countImg body.data = 6 := by
  have hc := countImg_page r now body hpage hproto
  have hm : r.Method ≠ "GET" := by
    rw [hpost]
    decide
  rw [streamCount_not_get r hm] at hc
  exact_mod_cast hc

/-- A POST to the root with `n=3` in the form gets 6 `<img` openers. -/
theorem post_page_img_count_witness :
    countImg (renderPage (postRoot "3") (fun i => 1000 + i)).data = 6 :=
  post_page_img_count (postRoot "3") (fun i => 1000 + i) _ rfl rfl (by decide)

/-- Counterexample to C10 as stated: a POST to the root whose form supplies
`n = 3`, a positive integer, is answered with a page of 6 `<img` openers,
not 3. -/
theorem post_ignores_n_counterexample :
    (postRoot "3").Method = "POST" ∧
    decimalInt? ((postRoot "3").FormValue "n") = some 3 ∧
    handle6MJPEGRoot (postRoot "3") (fun _ => 0)
      = Response.page (renderPage (postRoot "3") (fun _ => 0)) ∧
    countImg (renderPage (postRoot "3") (fun _ => 0)).data = 6 := by
  refine ⟨rfl, by decide, rfl, ?_⟩
  rw [countImg_renderPage _ _ (by decide)]
  rfl

/-! ## The dispatch of `handle6MJPEGRoot` -/

/-- Counterexample to C2 as stated. `GET /?x=.mjpg` has the path `/`, which
does not end with `.mjpg`, yet it is handed to the stream emitter because its
request target ends with `.mjpg`; and `GET /cam0/1/stream.mjpg?x=1`, whose
path does end with `.mjpg`, is answered with not-found. The query string
decides in both. -/
theorem dispatch_by_path_counterexample :
    (reqQueryMjpg.Path = "/" ∧ hasSuffix reqQueryMjpg.Path ".mjpg" = false ∧
      handle6MJPEGRoot reqQueryMjpg (fun _ => 0) = Response.stream) ∧
    (hasSuffix reqStreamQuery.Path ".mjpg" = true ∧
      handle6MJPEGRoot reqStreamQuery (fun _ => 0) = Response.notFound) := by
  refine ⟨⟨rfl, by decide, by decide⟩, by decide, by decide⟩

/-- C2 (as amended). The decision of `handle6MJPEGRoot` is taken on the request
target `r.RequestURI`, query string included, and then on the path: a target
ending with `.mjpg` goes to the stream emitter and no page is rendered;
otherwise a path other than `/` gets the not-found response; otherwise the
landing page is rendered. `GET /badpath` gets not-found. -/
theorem dispatch_by_request_uri (r : Request) (now : Nat → Int) :
    handle6MJPEGRoot r now =
      (if hasSuffix r.RequestURI ".mjpg" = true then Response.stream
       else if r.Path = "/" then Response.page (renderPage r now)
       else Response.notFound) ∧
    handle6MJPEGRoot reqBadPath now = Response.notFound := by
  constructor
  · unfold handle6MJPEGRoot
    by_cases h1 : hasSuffix r.RequestURI ".mjpg" = true
    · simp [h1]
    · by_cases h2 : r.Path = "/"
      · simp [h1, h2]
      · simp [h1, h2]
  · rfl

/-! ## The image sources of the landing page -/

theorem tagLoop_data (now : Nat → Int) (l : List Nat) (buf : String) :
    (l.foldl (fun b i => b ++ imgTag i (now i)) buf).data =
      buf.data ++ (l.map (fun i => (imgTag i (now i)).data)).flatten := by
  induction l generalizing buf with
  | nil => simp
  | cons i is ih =>
    rw [List.foldl_cons, ih, String.data_append, List.map_cons, List.flatten_cons,
      List.append_assoc]

theorem imgTag_infix_page (r : Request) (now : Nat → Int) (i : Nat)
    (hi : i < (streamCount r).toNat) :
    (imgTag i (now i)).data <:+: (renderPage r now).data := by
  unfold renderPage
  simp only
  rw [String.data_append, tagLoop_data]
  have hmem : (imgTag i (now i)).data ∈
      (List.range (streamCount r).toNat).map (fun i => (imgTag i (now i)).data) :=
    List.mem_map.mpr ⟨i, List.mem_range.mpr hi, rfl⟩
  have h1 := List.infix_of_mem_flatten hmem
  exact h1.trans (List.infix_append _ _ _)

theorem fmtNat_digit (i : Nat) (hi : i < 10) : (fmtNat i).data = [digitChar i] := by
  unfold fmtNat
  show fmtNatAux (i + 1) i [] = _
  unfold fmtNatAux
  rw [if_pos hi]

theorem fmtInt_ofNat (i : Nat) : fmtInt (i : Int) = fmtNat i := by
  unfold fmtInt
  rw [if_neg (by omega)]
  rfl

theorem digitChar_inj (i j : Nat) (hi : i < 10) (hj : j < 10) (h : digitChar i = digitChar j) :
    i = j := by
  interval_cases i <;> interval_cases j <;> first | rfl | exact absurd h (by decide)

theorem imgSrc_data (i : Nat) (ts : Int) :
    (imgSrc i ts).data = "/cam".data ++ ((fmtNat i).data ++
      ('/' :: ((fmtInt ts).data ++ "/stream.mjpg".data))) := by
  simp [imgSrc, String.data_append, fmtInt_ofNat]

theorem imgSrc_hasSuffix (i : Nat) (ts : Int) : hasSuffix (imgSrc i ts) ".mjpg" = true := by
  unfold hasSuffix
  rw [List.isSuffixOf_iff_suffix, imgSrc_data]
  have h1 : ".mjpg".data <:+ "/stream.mjpg".data := by
    rw [← List.isSuffixOf_iff_suffix]
    decide
  have h2 : "/stream.mjpg".data <:+ "/cam".data ++ ((fmtNat i).data ++
      ('/' :: ((fmtInt ts).data ++ "/stream.mjpg".data))) := by
    rw [← List.append_assoc, ← List.cons_append, ← List.append_assoc]
    exact List.suffix_append _ _
  exact h1.trans h2

/-- C9. On a rendered landing page with `c` streams (`1 ≤ c ≤ 10`), whatever the
timestamps: the tag of every stream `i < c` stands in the body, its source
begins with the segment `/cam<i>/`, the sources of two different streams
differ, and a request whose target is such a source is handed by
`handle6MJPEGRoot` to the stream emitter. -/
theorem page_sources_distinct_and_streamed (r : Request) (now : Nat → Int) (i j : Nat)
    (hi : i < (streamCount r).toNat) (hj : j < (streamCount r).toNat) :
    (1 ≤ streamCount r ∧ streamCount r ≤ 10) ∧
    (imgTag i (now i)).data <:+: (renderPage r now).data ∧
    ("/cam" ++ fmtNat i ++ "/").data <+: (imgSrc i (now i)).data ∧
    (i ≠ j → imgSrc i (now i) ≠ imgSrc j (now j)) ∧
    (∀ (q : Request) (now1 : Nat → Int), q.RequestURI = imgSrc i (now i) →
      handle6MJPEGRoot q now1 = Response.stream) := by
  have hc := streamCount_pos r
  have hi10 : i < 10 := by omega
  have hj10 : j < 10 := by omega
  refine ⟨hc, imgTag_infix_page r now i hi, ?_, ?_, ?_⟩
  · rw [imgSrc_data]
    simp only [String.data_append]
    refine ⟨(fmtInt (now i)).data ++ "/stream.mjpg".data, ?_⟩
    simp
  · intro hne heq
    have h := congrArg String.data heq
    rw [imgSrc_data, imgSrc_data, fmtNat_digit i hi10, fmtNat_digit j hj10] at h
    have h2 := List.append_cancel_left h
    rw [List.singleton_append, List.singleton_append] at h2
    injection h2 with h3 _
    exact hne (digitChar_inj i j hi10 hj10 h3)
  · intro q now1 hq
    unfold handle6MJPEGRoot
    rw [hq, imgSrc_hasSuffix]
    rfl

/-- On the page of `GET /?n=3` the sources of streams 0 and 2 differ and both
are stream targets. -/
theorem page_sources_distinct_and_streamed_witness :
    imgSrc 0 1000 ≠ imgSrc 2 1002 ∧
    handle6MJPEGRoot { reqBadPath with RequestURI := imgSrc 0 1000 } (fun _ => 0)
      = Response.stream := by
  have h := page_sources_distinct_and_streamed (getRoot "?n=3" "3") (fun i => 1000 + i) 0 2
    (by decide) (by decide)
  exact ⟨h.2.2.2.1 (by decide), h.2.2.2.2 _ _ rfl⟩

/-! ## The stream loop -/

theorem sentPayloads_snoc (fs0 : List (List Nat)) (b : List Nat) (h : fs0 ≠ []) :
    sentPayloads (fs0 ++ [b]) = sentPayloads fs0 ++ [b] := by
  cases fs0 with
  | nil => exact absurd rfl h
  | cons x xs => simp [sentPayloads]

theorem framesOf_cons (e : Event) (es : List Event) :
    framesOf (e :: es) = framesOf [e] ++ framesOf es := by
  cases e with
  | recv res => cases res <;> rfl
  | _ => rfl

theorem LoopInv_step (fs : List (List Nat)) (s s1 : Session) (e : Event)
    (hinv : LoopInv fs s) (hstep : step s e = some s1) : LoopInv (fs ++ framesOf [e]) s1 := by
  obtain ⟨loc, frame, cancelled, parts, logs, cycles⟩ := s
  cases e with
  | cancel =>
    simp only [step, Option.some.injEq] at hstep
    subst hstep
    cases loc <;> first | exact trivial | simpa [LoopInv, framesOf] using hinv
  | ctxDone =>
    cases loc <;> cases cancelled <;> simp [step] at hstep
    · subst hstep
      simp [LoopInv]
    · subst hstep
      simp only [LoopInv] at hinv
      obtain ⟨h1, h2, h3⟩ := hinv
      simp only [LoopInv, framesOf, List.append_nil]
      exact ⟨h1, by omega, h3⟩
  | recv res =>
    cases loc with
    | waitFrame =>
      cases res with
      | err err =>
        simp only [step, Option.some.injEq] at hstep
        subst hstep
        simp [LoopInv]
      | jpeg b =>
        simp only [step, Option.some.injEq] at hstep
        subst hstep
        simp only [LoopInv] at hinv
        obtain ⟨h1, h2, h3⟩ := hinv
        have hfl : forLoop 0 (if frame + 1 = 1 then 2 else 1) b
            = Loc.createPart 0 (if frame + 1 = 1 then 2 else 1) b := by
          unfold forLoop
          split <;> simp
        simp only [hfl, LoopInv, framesOf]
        refine ⟨fs, rfl, ?_, trivial, ?_, by omega, ?_⟩
        · simp [h1]
        · split <;> omega
        · simp [h3]
    | _ => simp [step] at hstep
  | createPart ok =>
    cases loc <;> simp [step] at hstep
    cases ok
    · simp at hstep
      subst hstep
      simp [LoopInv]
    · simp at hstep
      subst hstep
      simpa [LoopInv, framesOf] using hinv
  | write ok =>
    cases loc <;> simp [step] at hstep
    rename_i i sc b h
    cases ok
    · simp at hstep
      subst hstep
      simp [LoopInv]
    · simp at hstep
      subst hstep
      simp only [LoopInv] at hinv
      obtain ⟨fs0, hfs, hfr, hsc, hi, hcy, hp⟩ := hinv
      simp only [framesOf, List.append_nil]
      unfold forLoop
      by_cases hlt : i + 1 < sc
      · simp only [if_pos hlt, LoopInv]
        refine ⟨fs0, hfs, hfr, hsc, hlt, hcy, ?_⟩
        simp [hp, List.replicate_succ']
      · simp only [if_neg hlt, LoopInv]
        refine ⟨hfr, hcy, ?_⟩
        rw [List.map_append, hp, hfs]
        have hlen : fs.length = fs0.length + 1 := by simp [hfs]
        by_cases hf1 : frame = 1
        · simp only [hf1, if_true] at hsc
          have hi1 : i = 1 := by omega
          have hfs0 : fs0 = [] := by
            apply List.eq_nil_of_length_eq_zero
            omega
          subst hi1 hfs0
          simp [sentPayloads, List.replicate]
        · simp only [if_neg hf1] at hsc
          have hi0 : i = 0 := by omega
          have hfs0 : fs0 ≠ [] := by
            intro h0
            subst h0
            simp at hlen
            omega
          subst hi0
          simp [sentPayloads_snoc fs0 b hfs0]
  | timer =>
    cases loc <;> simp [step] at hstep
    subst hstep
    simp only [LoopInv] at hinv
    obtain ⟨h1, h2, h3⟩ := hinv
    simp only [LoopInv, framesOf, List.append_nil]
    exact ⟨h1, by omega, h3⟩

theorem LoopInv_run (evs : List Event) (fs : List (List Nat)) (s s1 : Session)
    (hinv : LoopInv fs s) (hrun : run s evs = some s1) : LoopInv (fs ++ framesOf evs) s1 := by
  induction evs generalizing fs s with
  | nil =>
    simp only [run, Option.some.injEq] at hrun
    subst hrun
    simpa [framesOf] using hinv
  | cons e es ih =>
    simp only [run] at hrun
    cases hs : step s e with
    | none => simp [hs] at hrun
    | some s2 =>
      rw [hs] at hrun
      have h2 := ih (fs ++ framesOf [e]) s2 (LoopInv_step fs s s2 e hinv hs) hrun
      rw [framesOf_cons, ← List.append_assoc]
      exact h2

theorem LoopInv_init : LoopInv [] Session.init := by
  simp [LoopInv, Session.init, sentPayloads]

theorem sentPayloads_length (fs : List (List Nat)) (h : 1 ≤ fs.length) :
    (sentPayloads fs).length = fs.length + 1 := by
  cases fs with
  | nil => simp at h
  | cons x xs => simp [sentPayloads]

/-- C3. In a session that stands at the head of the loop after `k ≥ 1` completed
cycles (so no frame error and no write error has ended it), the counter
`frame` equals `k`, exactly `k` frames were received and `k + 1` parts
written, and the payloads of the parts are the first frame twice in a row
followed by each later frame once. -/
theorem first_frame_twice (evs : List Event) (s : Session) (k : Nat)
    (hrun : handle6MJPEGStream evs = some s) (hloc : s.loc = Loc.waitFrame)
    (hk : s.cycles = k) (hk1 : 1 ≤ k) :
    s.frame = k ∧ (framesOf evs).length = k ∧ s.parts.length = k + 1 ∧
    s.parts.map Part.payload = sentPayloads (framesOf evs) := by
  have h := LoopInv_run evs [] Session.init s LoopInv_init hrun
  rw [List.nil_append] at h
  unfold LoopInv at h
  rw [hloc] at h
  simp only at h
  obtain ⟨h1, h2, h3⟩ := h
  have hlen : (framesOf evs).length = k := by omega
  refine ⟨by omega, hlen, ?_, h3⟩
  have := congrArg List.length h3
  rw [List.length_map, sentPayloads_length _ (by omega)] at this
  omega

/-- Scenario of C3: three cycles write 2 + 1 + 1 = 4 parts. -/
theorem first_frame_twice_witness :
    ∃ s, handle6MJPEGStream (cycleEvents [1] 2 ++ cycleEvents [2] 1 ++ cycleEvents [3] 1)
        = some s ∧
      s.frame = 3 ∧ s.parts.length = 4 ∧ s.parts.map Part.payload = [[1], [1], [2], [3]] := by
  have hrun : handle6MJPEGStream (cycleEvents [1] 2 ++ cycleEvents [2] 1 ++ cycleEvents [3] 1)
      = some { loc := Loc.waitFrame, frame := 3, cancelled := false,
               parts := [⟨⟨"image/jpeg", "1"⟩, [1]⟩, ⟨⟨"image/jpeg", "1"⟩, [1]⟩,
                         ⟨⟨"image/jpeg", "1"⟩, [2]⟩, ⟨⟨"image/jpeg", "1"⟩, [3]⟩],
               logs := [], cycles := 3 } := by decide
  have h := first_frame_twice _ _ 3 hrun rfl rfl (by decide)
  exact ⟨_, hrun, h.1, h.2.2.1, h.2.2.2⟩

/-! ## The headers of the parts -/

theorem digitChar_toNat (d : Nat) (h : d < 10) : (digitChar d).toNat - 48 = d := by
  interval_cases d <;> decide

theorem digitsValueFrom_append (n : Nat) (ds es : List Char) :
    digitsValueFrom n (ds ++ es) = digitsValueFrom (digitsValueFrom n ds) es := by
  unfold digitsValueFrom
  rw [List.foldl_append]

theorem fmtNatAux_spec (fuel n : Nat) (acc : List Char) (h : n < fuel) :
    ∃ ds, fmtNatAux fuel n acc = ds ++ acc ∧ ds ≠ [] ∧ (∀ c ∈ ds, c.isDigit = true) ∧
      digitsValueFrom 0 ds = n := by
  induction fuel generalizing n acc with
  | zero => omega
  | succ k ih =>
    unfold fmtNatAux
    by_cases hn : n < 10
    · rw [if_pos hn]
      refine ⟨[digitChar n], rfl, by simp, ?_, ?_⟩
      · intro c hc
        rw [List.mem_singleton.mp hc]
        exact digitChar_isDigit n hn
      · show 0 * 10 + ((digitChar n).toNat - 48) = n
        rw [digitChar_toNat n hn]
        omega
    · rw [if_neg hn]
      obtain ⟨ds, h1, h2, h3, h4⟩ := ih (n / 10) (digitChar (n % 10) :: acc) (by omega)
      refine ⟨ds ++ [digitChar (n % 10)], ?_, by simp, ?_, ?_⟩
      · rw [h1]
        simp
      · intro c hc
        rcases List.mem_append.mp hc with hc | hc
        · exact h3 c hc
        · rw [List.mem_singleton.mp hc]
          exact digitChar_isDigit _ (Nat.mod_lt _ (by decide))
      · rw [digitsValueFrom_append, h4]
        show n / 10 * 10 + ((digitChar (n % 10)).toNat - 48) = n
        rw [digitChar_toNat _ (Nat.mod_lt _ (by decide))]
        omega

theorem decimalNat_fmtNat (n : Nat) : decimalNat? (fmtNat n) = some n := by
  obtain ⟨ds, h1, h2, h3, h4⟩ := fmtNatAux_spec (n + 1) n [] (by omega)
  rw [List.append_nil] at h1
  have hd : (fmtNat n).data = ds := h1
  unfold decimalNat?
  rw [hd, if_pos ⟨h2, by simpa using h3⟩]
  exact congrArg some h4

theorem HeaderInv_step (s s1 : Session) (e : Event) (hinv : HeaderInv s)
    (hstep : step s e = some s1) : HeaderInv s1 := by
  obtain ⟨loc, frame, cancelled, parts, logs, cycles⟩ := s
  obtain ⟨hp, hw⟩ := hinv
  simp only at hp hw
  cases e with
  | cancel =>
    simp only [step, Option.some.injEq] at hstep
    subst hstep
    exact ⟨hp, hw⟩
  | ctxDone =>
    cases loc <;> cases cancelled <;> simp [step] at hstep <;> subst hstep <;>
      exact ⟨hp, by simp⟩
  | recv res =>
    cases loc with
    | waitFrame =>
      cases res with
      | err err =>
        simp only [step, Option.some.injEq] at hstep
        subst hstep
        exact ⟨hp, by simp⟩
      | jpeg b =>
        simp only [step, Option.some.injEq] at hstep
        subst hstep
        refine ⟨hp, ?_⟩
        intro i sc b1 h hl
        simp only [forLoop] at hl
        split at hl <;> cases hl
    | _ => simp [step] at hstep
  | createPart ok =>
    cases loc with
    | createPart i sc b =>
      cases ok
      · simp only [step, Bool.false_eq_true, if_false, Option.some.injEq] at hstep
        subst hstep
        exact ⟨hp, by simp⟩
      · simp only [step, if_true, Option.some.injEq] at hstep
        subst hstep
        refine ⟨hp, ?_⟩
        intro i1 sc1 b1 h hl
        simp only [Loc.writePart.injEq] at hl
        obtain ⟨_, _, hb, hh⟩ := hl
        rw [← hh, ← hb]
    | _ => simp [step] at hstep
  | write ok =>
    cases loc with
    | writePart i sc b h =>
      cases ok
      · simp only [step, Bool.false_eq_true, if_false, Option.some.injEq] at hstep
        subst hstep
        exact ⟨hp, by simp⟩
      · simp only [step, if_true, Option.some.injEq] at hstep
        subst hstep
        constructor
        · intro p hpm
          simp only at hpm
          rcases List.mem_append.mp hpm with hpm | hpm
          · exact hp p hpm
          · rw [List.mem_singleton.mp hpm]
            exact hw i sc b h rfl
        · intro i1 sc1 b1 h1 hl
          simp only [forLoop] at hl
          split at hl <;> cases hl
    | _ => simp [step] at hstep
  | timer =>
    cases loc <;> simp [step] at hstep
    subst hstep
    exact ⟨hp, by simp⟩

theorem HeaderInv_run (evs : List Event) (s s1 : Session) (hinv : HeaderInv s)
    (hrun : run s evs = some s1) : HeaderInv s1 := by
  induction evs generalizing s with
  | nil =>
    simp only [run, Option.some.injEq] at hrun
    subst hrun
    exact hinv
  | cons e es ih =>
    simp only [run] at hrun
    cases hs : step s e with
    | none => simp [hs] at hrun
    | some s2 =>
      rw [hs] at hrun
      exact ih s2 (HeaderInv_step s s2 e hinv hs) hrun

/-- C4. Every part written in a session of `handle6MJPEGStream` declares the
content type `image/jpeg` and a content length that is the decimal text of
the exact number of payload bytes, whatever the frame bytes are, the empty
buffer included; and whenever a part has been created and its payload is
about to be written, its header declares the length of exactly these
bytes. -/
theorem part_header_length (evs : List Event) (s : Session)
    (hrun : handle6MJPEGStream evs = some s) :
    (∀ p ∈ s.parts,
      p.header.contentType = "image/jpeg" ∧
      p.header.contentLength = fmtNat p.payload.length ∧
      decimalNat? p.header.contentLength = some p.payload.length) ∧
    (∀ i sendCount jpegBytes h, s.loc = Loc.writePart i sendCount jpegBytes h →
      h.contentType = "image/jpeg" ∧
      decimalNat? h.contentLength = some jpegBytes.length) := by
  have hinit : HeaderInv Session.init := by
    constructor
    · intro p hp
      simp [Session.init] at hp
    · intro i sc b h hl
      simp [Session.init] at hl
  have h := HeaderInv_run evs _ s hinit hrun
  constructor
  · intro p hp
    rw [h.1 p hp]
    exact ⟨rfl, rfl, decimalNat_fmtNat _⟩
  · intro i sc b hd hl
    rw [h.2 i sc b hd hl]
    exact ⟨rfl, decimalNat_fmtNat _⟩

/-- A session that sends an empty frame and then a frame of three bytes: the
part of the empty frame declares the length 0. -/
theorem part_header_length_witness :
    ∃ s, handle6MJPEGStream (cycleEvents [] 2 ++ cycleEvents [1, 2, 3] 1) = some s ∧
      (Part.mk (PartHeader.mk "image/jpeg" "0") []) ∈ s.parts ∧
      decimalNat? (PartHeader.mk "image/jpeg" "0").contentLength = some 0 := by
  have hrun : handle6MJPEGStream (cycleEvents [] 2 ++ cycleEvents [1, 2, 3] 1)
      = some { loc := Loc.waitFrame, frame := 2, cancelled := false,
               parts := [⟨⟨"image/jpeg", "0"⟩, []⟩, ⟨⟨"image/jpeg", "0"⟩, []⟩,
                         ⟨⟨"image/jpeg", "3"⟩, [1, 2, 3]⟩],
               logs := [], cycles := 2 } := by decide
  exact ⟨_, hrun, by decide,
    ((part_header_length _ _ hrun).1 ⟨⟨"image/jpeg", "0"⟩, []⟩ (by decide)).2.2⟩

/-! ## How the loop ends -/

theorem exited_run (es : List Event) (s s2 : Session) (hloc : s.loc = Loc.exited)
    (hrun : run s es = some s2) :
    s2.loc = Loc.exited ∧ s2.parts = s.parts ∧ s2.logs = s.logs ∧ s2.frame = s.frame := by
  induction es generalizing s with
  | nil =>
    simp only [run, Option.some.injEq] at hrun
    subst hrun
    exact ⟨hloc, rfl, rfl, rfl⟩
  | cons e es ih =>
    simp only [run] at hrun
    cases hs : step s e with
    | none => simp [hs] at hrun
    | some s1 =>
      rw [hs] at hrun
      obtain ⟨loc, frame, cancelled, parts, logs, cycles⟩ := s
      simp only at hloc
      subst hloc
      cases e with
      | cancel =>
        simp only [step, Option.some.injEq] at hs
        subst hs
        have h := ih (Session.mk Loc.exited frame true parts logs cycles) rfl hrun
        exact h
      | ctxDone => cases cancelled <;> simp [step] at hs
      | recv res => simp [step] at hs
      | createPart ok => simp [step] at hs
      | write ok => simp [step] at hs
      | timer => simp [step] at hs

theorem run_cycle (s : Session) (b : List Nat) (hloc : s.loc = Loc.waitFrame) :
    ∃ s2, run s (cycleEvents b (if s.frame + 1 = 1 then 2 else 1)) = some s2 ∧
      s2.loc = Loc.waitFrame ∧ s2.cycles = s.cycles + 1 ∧ s2.frame = s.frame + 1 ∧
      s2.logs = s.logs := by
  obtain ⟨loc, frame, cancelled, parts, logs, cycles⟩ := s
  simp only at hloc
  subst hloc
  by_cases hf : frame + 1 = 1
  · simp [hf, cycleEvents, run, step, forLoop, List.replicate]
  · simp [hf, cycleEvents, run, step, forLoop, List.replicate]

/-- C7. A step of a running session ends it exactly when the loop takes the
cancellation case of the frame wait, receives a frame error, or sees
`CreatePart` or `Write` fail. A frame error adds its one log line and no
part; a failed `CreatePart` or `Write` and an observed cancellation add no
log line and no part; after the end nothing is written or logged any more.
From the frame wait, a frame whose parts are all written and whose delay
runs out brings the loop to the next frame wait. -/
theorem loop_exits (s s1 : Session) (e : Event) (hloc : s.loc ≠ Loc.exited)
    (hstep : step s e = some s1) :
    (s1.loc = Loc.exited ↔
      (e = Event.ctxDone ∧ s.loc = Loc.waitFrame ∧ s.cancelled = true) ∨
      (∃ err, e = Event.recv (FrameResult.err err)) ∨
      e = Event.createPart false ∨ e = Event.write false) ∧
    (∀ err, e = Event.recv (FrameResult.err err) →
      s1.logs = s.logs ++ [logLine err] ∧ s1.parts = s.parts) ∧
    (e = Event.createPart false ∨ e = Event.write false ∨ e = Event.ctxDone →
      s1.logs = s.logs ∧ s1.parts = s.parts) ∧
    (∀ es s2, s1.loc = Loc.exited → run s1 es = some s2 →
      s2.loc = Loc.exited ∧ s2.parts = s1.parts ∧ s2.logs = s1.logs) ∧
    (∀ b, s.loc = Loc.waitFrame →
      ∃ s2, run s (cycleEvents b (if s.frame + 1 = 1 then 2 else 1)) = some s2 ∧
        s2.loc = Loc.waitFrame ∧ s2.cycles = s.cycles + 1 ∧ s2.logs = s.logs) := by
  refine ⟨?_, ?_, ?_, ?_, ?_⟩
  · obtain ⟨loc, frame, cancelled, parts, logs, cycles⟩ := s
    simp only at hloc
    cases e with
    | cancel =>
      simp only [step, Option.some.injEq] at hstep
      subst hstep
      simp [hloc]
    | ctxDone =>
      cases loc <;> cases cancelled <;> simp [step] at hstep <;> subst hstep <;> simp
    | recv res =>
      cases loc with
      | waitFrame =>
        cases res with
        | err err =>
          simp only [step, Option.some.injEq] at hstep
          subst hstep
          simp
        | jpeg b =>
          simp only [step, Option.some.injEq] at hstep
          subst hstep
          simp only [forLoop]
          split <;> simp
      | _ => simp [step] at hstep
    | createPart ok =>
      cases loc with
      | createPart i sc b =>
        cases ok <;> simp [step] at hstep <;> subst hstep <;> simp
      | _ => simp [step] at hstep
    | write ok =>
      cases loc with
      | writePart i sc b h =>
        cases ok
        · simp [step] at hstep
          subst hstep
          simp
        · simp only [step, if_true, Option.some.injEq] at hstep
          subst hstep
          simp only [forLoop]
          split <;> simp
      | _ => simp [step] at hstep
    | timer =>
      cases loc <;> simp [step] at hstep
      subst hstep
      simp
  · intro err he
    subst he
    obtain ⟨loc, frame, cancelled, parts, logs, cycles⟩ := s
    cases loc <;> simp [step] at hstep
    subst hstep
    simp
  · intro he
    obtain ⟨loc, frame, cancelled, parts, logs, cycles⟩ := s
    rcases he with he | he | he <;> subst he
    · cases loc <;> simp [step] at hstep
      subst hstep
      simp
    · cases loc <;> simp [step] at hstep
      subst hstep
      simp
    · cases loc <;> cases cancelled <;> simp [step] at hstep <;> subst hstep <;> simp
  · intro es s2 hl hr
    obtain ⟨h1, h2, h3, _⟩ := exited_run es s1 s2 hl hr
    exact ⟨h1, h2, h3⟩
  · intro b hl
    obtain ⟨s2, h1, h2, h3, _, h5⟩ := run_cycle s b hl
    exact ⟨s2, h1, h2, h3, h5⟩

/-- A frame error at the first frame wait: the session ends with one log line
and no part. -/
theorem loop_exits_witness :
    ∃ s1, step Session.init (Event.recv (FrameResult.err "encode failed")) = some s1 ∧
      s1.loc = Loc.exited ∧ s1.logs = ["error getting issue735583 jpeg: encode failed"] ∧
      s1.parts = [] := by
  have hstep : step Session.init (Event.recv (FrameResult.err "encode failed"))
      = some { loc := Loc.exited, frame := 0, cancelled := false, parts := [],
               logs := ["error getting issue735583 jpeg: encode failed"], cycles := 0 } := by
    decide
  have h := loop_exits Session.init _ _ (by decide) hstep
  exact ⟨_, hstep, h.1.mpr (Or.inr (Or.inl ⟨_, rfl⟩)), (h.2.1 _ rfl).1, (h.2.1 _ rfl).2⟩

/-! ## Cancellation -/

/-- Counterexample to C6 as stated. The first frame arrives and its first part
is written; then the request context is cancelled; the `for` loop does not
look at the context and writes the second part all the same. -/
theorem write_after_cancel_counterexample :
    (handle6MJPEGStream [Event.recv (FrameResult.jpeg [7]), Event.createPart true,
        Event.write true, Event.cancel]).map (fun s => (s.cancelled, s.parts.length))
      = some (true, 1) ∧
    (handle6MJPEGStream [Event.recv (FrameResult.jpeg [7]), Event.createPart true,
        Event.write true, Event.cancel, Event.createPart true, Event.write true]).map
        (fun s => (s.cancelled, s.parts.length))
      = some (true, 2) := by
  constructor <;> decide

/-- C6 (as amended). The loop consults the cancellation signal only in its two
`select` statements. When the signal has fired and the loop takes the
cancellation case of the frame wait, the handler returns and no part is
written in that step or ever after; when it takes the cancellation case
during the inter-cycle delay, the delay ends without a write and the loop
goes to the next frame wait. (Between the two parts of the first frame the
signal is not consulted.) -/
theorem cancel_observed_at_select (s : Session) :
    (∀ s1, step s Event.ctxDone = some s1 →
      s.cancelled = true ∧ (s.loc = Loc.waitFrame ∨ s.loc = Loc.delay) ∧
      s1.parts = s.parts ∧ s1.logs = s.logs) ∧
    (s.cancelled = true → s.loc = Loc.waitFrame →
      ∃ s1, step s Event.ctxDone = some s1 ∧ s1.loc = Loc.exited ∧
        ∀ es s2, run s1 es = some s2 → s2.loc = Loc.exited ∧ s2.parts = s.parts) ∧
    (s.cancelled = true → s.loc = Loc.delay →
      ∃ s1, step s Event.ctxDone = some s1 ∧ s1.loc = Loc.waitFrame ∧ s1.parts = s.parts) := by
  obtain ⟨loc, frame, cancelled, parts, logs, cycles⟩ := s
  refine ⟨?_, ?_, ?_⟩
  · intro s1 hstep
    cases loc <;> cases cancelled <;> simp [step] at hstep <;> subst hstep <;> simp
  · intro hc hl
    simp only at hc hl
    subst hc hl
    refine ⟨Session.mk Loc.exited frame true parts logs cycles, rfl, rfl, ?_⟩
    intro es s2 hr
    obtain ⟨h1, h2, _, _⟩ := exited_run es _ s2 rfl hr
    exact ⟨h1, h2⟩
  · intro hc hl
    simp only at hc hl
    subst hc hl
    exact ⟨Session.mk Loc.waitFrame frame true parts logs (cycles + 1), rfl, rfl, rfl⟩

/-- The context is cancelled while the loop waits for the second frame: the
loop takes the cancellation case and the two parts of the first frame stay
the only ones, whatever is tried afterwards. -/
theorem cancel_observed_at_select_witness :
    ∃ s1, step (Session.mk Loc.waitFrame 1 true
        [⟨⟨"image/jpeg", "1"⟩, [7]⟩, ⟨⟨"image/jpeg", "1"⟩, [7]⟩] [] 1) Event.ctxDone = some s1 ∧
      s1.loc = Loc.exited ∧
      ∀ es s2, run s1 es = some s2 → s2.loc = Loc.exited ∧
        s2.parts = [⟨⟨"image/jpeg", "1"⟩, [7]⟩, ⟨⟨"image/jpeg", "1"⟩, [7]⟩] :=
  (cancel_observed_at_select (Session.mk Loc.waitFrame 1 true
    [⟨⟨"image/jpeg", "1"⟩, [7]⟩, ⟨⟨"image/jpeg", "1"⟩, [7]⟩] [] 1)).2.1 rfl rfl

/-! ## The inter-cycle delay -/

/-- The timer alone: for a cycle started at `t0` whose delay is computed after the
processing time `e ≥ 0`, the timer of the second `select` waits exactly
`max 0 (500 ms - e)`: for `e < 500 ms` it fires 500 ms after `t0`, for
`e ≥ 500 ms` it fires at once, and the wait is never negative. -/
theorem interCycleWait_eq (t0 e : Int) (he : 0 ≤ e) :
    interCycleWait t0 (t0 + e) = max 0 (delay - e) ∧
    (e < delay → (t0 + e) + interCycleWait t0 (t0 + e) = t0 + delay) ∧
    (delay ≤ e → interCycleWait t0 (t0 + e) = 0) ∧
    0 ≤ interCycleWait t0 (t0 + e) ∧
    delay = 500000000 := by
  have hd : delay = 500000000 := by
    unfold delay Millisecond
    norm_num
  have hsub : t0 + delay - (t0 + e) = delay - e := by ring
  have hw : interCycleWait t0 (t0 + e) = max 0 (delay - e) := by
    unfold interCycleWait timerWait timeUntil saturate
    rw [hsub, hd]
    have h1 : ¬ ((500000000 : Int) - e > 2 ^ 63 - 1) := by omega
    rw [if_neg h1]
    by_cases h2 : (500000000 : Int) - e < -(2 ^ 63)
    · rw [if_pos h2, if_pos (by norm_num), max_eq_left (by omega)]
    · rw [if_neg h2]
      by_cases h3 : (500000000 : Int) - e ≤ 0
      · rw [if_pos h3, max_eq_left h3]
      · rw [if_neg h3, max_eq_right (by omega)]
  refine ⟨hw, ?_, ?_, ?_, hd⟩
  · intro h
    rw [hw, max_eq_right (by omega)]
    ring
  · intro h
    rw [hw, max_eq_left (by omega)]
  · rw [hw]
    exact le_max_left _ _

theorem TimedInv_init (start : Int) : TimedInv (TimedSession.init start) := by
  simp [TimedInv, TimedSession.init, Session.init]

theorem TimedInv_step (ts ts1 : TimedSession) (te : Event × Int) (hinv : TimedInv ts)
    (hstep : timedStep ts te = some ts1) : TimedInv ts1 := by
  obtain ⟨e, t⟩ := te
  obtain ⟨⟨loc, frame, cancelled, parts, logs, cycles⟩, t0, clock, delayAt, cancelAt⟩ := ts
  obtain ⟨h1, h2, h3⟩ := hinv
  simp only at h1 h2 h3
  unfold timedStep at hstep
  simp only at hstep
  by_cases ht : t < clock
  · simp [ht] at hstep
  · rw [if_neg ht] at hstep
    have ht' : clock ≤ t := by omega
    cases e with
    | cancel =>
      simp only [step] at hstep
      by_cases hc : cancelAt = none
      · simp only [hc, if_true, Option.some.injEq] at hstep
        subst hstep
        refine ⟨by simp only; omega, by simp, ?_⟩
        intro hl
        obtain ⟨a, b, _⟩ := h3 hl
        exact ⟨a, by simp only; omega, by simp⟩
      · simp [hc] at hstep
    | ctxDone =>
      cases loc <;> cases cancelled <;> simp [step] at hstep
      · subst hstep
        exact ⟨by simp only; omega, by simpa using h2, by simp⟩
      · obtain ⟨_, hstep⟩ := hstep
        subst hstep
        exact ⟨by simp, by simpa using h2, by simp⟩
    | recv res =>
      cases loc with
      | waitFrame =>
        cases res with
        | err err =>
          simp only [step, Option.some.injEq] at hstep
          subst hstep
          exact ⟨by simp only; omega, by simpa using h2, by simp⟩
        | jpeg b =>
          simp only [step, Option.some.injEq] at hstep
          subst hstep
          refine ⟨by simp only; omega, by simpa using h2, ?_⟩
          intro hl
          exfalso
          have hsc : 0 < (if frame + 1 = 1 then 2 else 1) := by split <;> omega
          have hfl : forLoop 0 (if frame + 1 = 1 then 2 else 1) b
              = Loc.createPart 0 (if frame + 1 = 1 then 2 else 1) b := by
            unfold forLoop
            rw [if_pos hsc]
          rw [hfl] at hl
          cases hl
      | _ => simp [step] at hstep
    | createPart ok =>
      cases loc with
      | createPart i sc b =>
        cases ok <;> simp [step] at hstep <;> subst hstep <;>
          exact ⟨by simp only; omega, by simpa using h2, by simp⟩
      | _ => simp [step] at hstep
    | write ok =>
      cases loc with
      | writePart i sc b h =>
        cases ok
        · simp [step] at hstep
          subst hstep
          exact ⟨by simp only; omega, by simpa using h2, by simp⟩
        · simp only [step, if_true, Option.some.injEq] at hstep
          subst hstep
          refine ⟨by simp only; omega, by simpa using h2, ?_⟩
          intro hl
          simp only at hl
          simp only [hl, if_true]
          refine ⟨by omega, le_refl _, ?_⟩
          first | exact fun _ => rfl | exact fun _ => trivial
      | _ => simp [step] at hstep
    | timer =>
      cases loc <;> simp [step] at hstep
      obtain ⟨_, hstep⟩ := hstep
      subst hstep
      exact ⟨by simp, by simpa using h2, by simp⟩

theorem TimedInv_run (tes : List (Event × Int)) (ts ts1 : TimedSession) (hinv : TimedInv ts)
    (hrun : timedRun ts tes = some ts1) : TimedInv ts1 := by
  induction tes generalizing ts with
  | nil =>
    simp only [timedRun, Option.some.injEq] at hrun
    subst hrun
    exact hinv
  | cons te tes ih =>
    simp only [timedRun] at hrun
    cases hs : timedStep ts te with
    | none => simp [hs] at hrun
    | some ts2 =>
      rw [hs] at hrun
      exact ih ts2 (TimedInv_step ts ts2 te hinv hs) hrun

theorem interCycleWait_max (t0 now : Int) (h : t0 ≤ now) :
    interCycleWait t0 now = max 0 (delay - (now - t0)) := by
  have h1 := (interCycleWait_eq t0 (now - t0) (by omega)).1
  have h2 : t0 + (now - t0) = now := by ring
  rw [h2] at h1
  exact h1

/-- Counterexample to C5 as stated. A cycle starts at instant 0 and its parts
are written at once, so the processing time is 0 and `max 0 (500 ms - 0)` is
500 ms; the request context is cancelled at 200 ms, the second `select`
takes the cancellation case, and the next cycle starts at 200 ms. -/
theorem delay_cut_short_counterexample :
    (timedRun (TimedSession.init 0)
        [(Event.recv (FrameResult.jpeg [7]), 0), (Event.createPart true, 0),
         (Event.write true, 0), (Event.createPart true, 0), (Event.write true, 0),
         (Event.cancel, 200000000), (Event.ctxDone, 200000000)]).map
        (fun ts => (ts.s.loc, ts.s.cycles, ts.t0))
      = some (Loc.waitFrame, 1, 200000000) ∧
    max 0 (delay - (0 - 0)) = 500000000 := by
  constructor <;> decide

/-- C5 (as amended). In a session that stands in the second `select` of a cycle
started at `t0`, the timer armed at `delayAt`, so after the processing time
`e = delayAt - t0`: `e` is not negative; when the `select` ends by its timer
the wait is exactly `max 0 (500 ms - e)`, so for `e < 500 ms` the next cycle
starts 500 ms after `t0` and for `e ≥ 500 ms` it starts with no wait; when
it ends by the cancellation the context is cancelled and the wait is not
negative and at most `max 0 (500 ms - e)`; and as long as the context is not
cancelled the `select` ends by its timer and in no other way. -/
theorem delay_select_wait (start : Int) (tes : List (Event × Int)) (ts : TimedSession)
    (hrun : timedRun (TimedSession.init start) tes = some ts) (hloc : ts.s.loc = Loc.delay) :
    0 ≤ ts.delayAt - ts.t0 ∧
    (∀ t ts1, timedStep ts (Event.timer, t) = some ts1 →
      t - ts.delayAt = max 0 (delay - (ts.delayAt - ts.t0)) ∧
      ts1.s.loc = Loc.waitFrame ∧ ts1.s.cycles = ts.s.cycles + 1 ∧ ts1.t0 = t ∧
      (ts.delayAt - ts.t0 < delay → t = ts.t0 + delay) ∧
      (delay ≤ ts.delayAt - ts.t0 → t = ts.delayAt)) ∧
    (∀ t ts1, timedStep ts (Event.ctxDone, t) = some ts1 →
      ts.cancelAt ≠ none ∧ 0 ≤ t - ts.delayAt ∧
      t - ts.delayAt ≤ max 0 (delay - (ts.delayAt - ts.t0)) ∧
      ts1.s.loc = Loc.waitFrame ∧ ts1.s.cycles = ts.s.cycles + 1 ∧ ts1.t0 = t) ∧
    (ts.cancelAt = none →
      (∃ ts1, timedStep ts
        (Event.timer, ts.delayAt + max 0 (delay - (ts.delayAt - ts.t0))) = some ts1) ∧
      (∀ t, timedStep ts (Event.ctxDone, t) = none)) := by
  have hinv := TimedInv_run tes _ ts (TimedInv_init start) hrun
  obtain ⟨⟨loc, frame, cancelled, parts, logs, cycles⟩, t0, clock, delayAt, cancelAt⟩ := ts
  simp only at hloc
  subst hloc
  obtain ⟨h1, h2, h3⟩ := hinv
  simp only at h1 h2 h3
  obtain ⟨h4, h5, h6⟩ := h3 trivial
  have hw := interCycleWait_max t0 delayAt h4
  have hw0 : 0 ≤ max 0 (delay - (delayAt - t0)) := le_max_left _ _
  have hd : delay = 500000000 := (interCycleWait_eq 0 0 (le_refl _)).2.2.2.2
  simp only
  refine ⟨by omega, ?_, ?_, ?_⟩
  · intro t ts1 hstep
    unfold timedStep at hstep
    simp only [step] at hstep
    by_cases ht : t < clock
    · simp [ht] at hstep
    · rw [if_neg ht] at hstep
      split at hstep
      · rename_i hg
        simp only [Option.some.injEq] at hstep
        subst hstep
        simp only
        rw [hw] at hg
        refine ⟨by omega, by first | rfl | trivial, by first | rfl | trivial,
          by first | rfl | trivial, ?_, ?_⟩
        · intro hlt
          rw [max_eq_right (by omega)] at hg
          omega
        · intro hle
          rw [max_eq_left (by omega)] at hg
          omega
      · cases hstep
  · intro t ts1 hstep
    unfold timedStep at hstep
    by_cases ht : t < clock
    · simp [ht] at hstep
    · rw [if_neg ht] at hstep
      cases cancelled with
      | false => simp [step] at hstep
      | true =>
        simp only [step, if_true] at hstep
        split at hstep
        · rename_i hg
          simp only [Option.some.injEq] at hstep
          subst hstep
          simp only
          rw [hw] at hg
          exact ⟨h2.mp rfl, by omega, by omega, by first | rfl | trivial,
            by first | rfl | trivial, by first | rfl | trivial⟩
        · cases hstep
  · intro hc
    have hclk := h6 hc
    constructor
    · refine ⟨TimedSession.mk (Session.mk Loc.waitFrame frame cancelled parts logs (cycles + 1))
        (delayAt + max 0 (delay - (delayAt - t0))) (delayAt + max 0 (delay - (delayAt - t0)))
        delayAt cancelAt, ?_⟩
      unfold timedStep
      simp only [step]
      have ht : ¬ (delayAt + max 0 (delay - (delayAt - t0)) < clock) := by omega
      rw [if_neg ht, if_pos ⟨by rw [hw], Or.inl hc⟩]
    · intro t
      have hcf : cancelled = false := by
        cases cancelled with
        | false => rfl
        | true => exact absurd hc (h2.mp rfl)
      subst hcf
      unfold timedStep
      simp [step]

/-- A first cycle started at instant 0 whose two parts are written by 3 ms: the
context is not cancelled, and the timer ends the delay 497 ms later, at
500 ms. -/
theorem delay_select_wait_witness :
    (3000000 : Int) + max 0 (delay - (3000000 - 0)) = 500000000 ∧
    ∃ ts1, timedStep
        (TimedSession.mk (Session.mk Loc.delay 1 false
          [⟨⟨"image/jpeg", "1"⟩, [7]⟩, ⟨⟨"image/jpeg", "1"⟩, [7]⟩] [] 0) 0 3000000 3000000 none)
        (Event.timer, 3000000 + max 0 (delay - (3000000 - 0))) = some ts1 := by
  have hrun : timedRun (TimedSession.init 0)
      [(Event.recv (FrameResult.jpeg [7]), 1000000), (Event.createPart true, 1000000),
       (Event.write true, 2000000), (Event.createPart true, 2000000),
       (Event.write true, 3000000)]
      = some (TimedSession.mk (Session.mk Loc.delay 1 false
          [⟨⟨"image/jpeg", "1"⟩, [7]⟩, ⟨⟨"image/jpeg", "1"⟩, [7]⟩] [] 0) 0 3000000 3000000 none) := by
    decide
  exact ⟨by decide, ((delay_select_wait 0 _ _ hrun rfl).2.2.2 rfl).1⟩

/-! ## The bitmap of a frame -/

theorem fillChannel_spec (off v : Nat) (hoff : off < 4) (fuel i : Nat) (pix : List Nat)
    (hlen : 4 ∣ pix.length) (hi : 4 ∣ i) (hfuel : pix.length ≤ i + 4 * fuel) :
    ∃ out, fillChannel off v fuel i pix = some out ∧ out.length = pix.length ∧
      ∀ j, out[j]? =
        if i ≤ j ∧ j < pix.length ∧ j % 4 = off then some v else pix[j]? := by
  induction fuel generalizing i pix with
  | zero =>
    have h0 : ¬ i < pix.length := by omega
    refine ⟨pix, ?_, rfl, ?_⟩
    · unfold fillChannel
      rw [if_neg h0]
    · intro j
      have : ¬ (i ≤ j ∧ j < pix.length ∧ j % 4 = off) := by omega
      rw [if_neg this]
  | succ k ih =>
    unfold fillChannel
    by_cases h0 : i < pix.length
    · have hin : i + off < pix.length := by
        obtain ⟨a, ha⟩ := hlen
        obtain ⟨b, hb⟩ := hi
        omega
      rw [if_pos h0, if_pos hin]
      obtain ⟨out, h1, h2, h3⟩ := ih (i + 4) (pix.set (i + off) v)
        (by rw [List.length_set]; exact hlen) (by omega) (by rw [List.length_set]; omega)
      refine ⟨out, h1, by rw [h2, List.length_set], ?_⟩
      intro j
      rw [h3 j, List.length_set, List.getElem?_set]
      obtain ⟨b, hb⟩ := hi
      by_cases hj : i + off = j
      · subst hj
        have c1 : ¬ (i + 4 ≤ i + off ∧ i + off < pix.length ∧ (i + off) % 4 = off) := by omega
        have c2 : i ≤ i + off ∧ i + off < pix.length ∧ (i + off) % 4 = off := by omega
        rw [if_neg c1, if_pos c2]
        simp [hin]
      · by_cases c1 : i + 4 ≤ j ∧ j < pix.length ∧ j % 4 = off
        · have c2 : i ≤ j ∧ j < pix.length ∧ j % 4 = off := by omega
          rw [if_pos c1, if_pos c2]
        · have c2 : ¬ (i ≤ j ∧ j < pix.length ∧ j % 4 = off) := by omega
          rw [if_neg c1, if_neg c2, if_neg hj]
    · rw [if_neg h0]
      refine ⟨pix, rfl, rfl, ?_⟩
      intro j
      have : ¬ (i ≤ j ∧ j < pix.length ∧ j % 4 = off) := by omega
      rw [if_neg this]

/-- C8. For all three values drawn, the three loops of `getRandomJPEG` stay
within the pixel buffer and finish, the buffer has 2500 bytes (25 × 25
pixels of four bytes), and each of the 625 pixels has the red, green and
blue bytes `byte r`, `byte g`, `byte b` and the alpha byte 0 it started
with; a value below 256 is its own byte. -/
theorem getRandomJPEG_bitmap (ri gi bi : Nat) :
    ∃ pix, getRandomJPEGPix ri gi bi = some pix ∧ pix.length = 2500 ∧
      (∀ p, p < 625 →
        pix[4 * p]? = some (byte ri) ∧ pix[4 * p + 1]? = some (byte gi) ∧
        pix[4 * p + 2]? = some (byte bi) ∧ pix[4 * p + 3]? = some 0) ∧
      (ri < 256 → byte ri = ri) ∧ (gi < 256 → byte gi = gi) ∧ (bi < 256 → byte bi = bi) := by
  have hl0 : (newRGBAPix 25 25).length = 2500 := by
    unfold newRGBAPix
    rw [List.length_replicate]
  obtain ⟨p1, e1, l1, s1⟩ := fillChannel_spec 0 (byte ri) (by norm_num) (newRGBAPix 25 25).length 0
    (newRGBAPix 25 25) (by rw [hl0]; norm_num) (by norm_num) (by omega)
  rw [hl0] at l1
  obtain ⟨p2, e2, l2, s2⟩ := fillChannel_spec 1 (byte gi) (by norm_num) p1.length 0 p1
    (by rw [l1]; norm_num) (by norm_num) (by omega)
  rw [l1] at l2
  obtain ⟨p3, e3, l3, s3⟩ := fillChannel_spec 2 (byte bi) (by norm_num) p2.length 0 p2
    (by rw [l2]; norm_num) (by norm_num) (by omega)
  rw [l2] at l3
  refine ⟨p3, ?_, l3, ?_, ?_, ?_, ?_⟩
  · unfold getRandomJPEGPix
    simp only [e1, Option.some_bind, e2, e3]
  · intro p hp
    have hz : ∀ j, j < 2500 → (newRGBAPix 25 25)[j]? = some 0 := by
      intro j hj
      unfold newRGBAPix
      rw [List.getElem?_replicate]
      simp [hj]
    simp only [s3, s2, s1, l1, l2, hl0]
    refine ⟨?_, ?_, ?_, ?_⟩
    · have a3 : ¬ (0 ≤ 4 * p ∧ 4 * p < 2500 ∧ 4 * p % 4 = 2) := by omega
      have a2 : ¬ (0 ≤ 4 * p ∧ 4 * p < 2500 ∧ 4 * p % 4 = 1) := by omega
      have a1 : 0 ≤ 4 * p ∧ 4 * p < 2500 ∧ 4 * p % 4 = 0 := by omega
      rw [if_neg a3, if_neg a2, if_pos a1]
    · have a3 : ¬ (0 ≤ 4 * p + 1 ∧ 4 * p + 1 < 2500 ∧ (4 * p + 1) % 4 = 2) := by omega
      have a2 : 0 ≤ 4 * p + 1 ∧ 4 * p + 1 < 2500 ∧ (4 * p + 1) % 4 = 1 := by omega
      rw [if_neg a3, if_pos a2]
    · have a3 : 0 ≤ 4 * p + 2 ∧ 4 * p + 2 < 2500 ∧ (4 * p + 2) % 4 = 2 := by omega
      rw [if_pos a3]
    · have a3 : ¬ (0 ≤ 4 * p + 3 ∧ 4 * p + 3 < 2500 ∧ (4 * p + 3) % 4 = 2) := by omega
      have a2 : ¬ (0 ≤ 4 * p + 3 ∧ 4 * p + 3 < 2500 ∧ (4 * p + 3) % 4 = 1) := by omega
      have a1 : ¬ (0 ≤ 4 * p + 3 ∧ 4 * p + 3 < 2500 ∧ (4 * p + 3) % 4 = 0) := by omega
      rw [if_neg a3, if_neg a2, if_neg a1]
      exact hz _ (by omega)
  · intro h
    exact Nat.mod_eq_of_lt h
  · intro h
    exact Nat.mod_eq_of_lt h
  · intro h
    exact Nat.mod_eq_of_lt h

end Issue735583
